import Mathlib

/-!
# CrossMeter: a timer-free rate meter with multi-period peaks

A shallow embedding of `crossmeter.c` / `crossmeter.h`.

Conventions of the embedding

* `uint32_t` values are natural numbers; every `uint32_t` operation of the
  source is followed by an explicit reduction modulo `U32 = 2^32`.
* `struct timeval` has two signed fields (`long` on an LP64 target), modelled
  as unbounded integers. Signed division is C division, which truncates
  towards zero (`Int.tdiv`).
* Undefined behaviour of the source (an out-of-bounds access to
  `speed_slice`, a division by a zero period) is the result `none`.
* Where the source reads the clock because the caller passed `NULL`, the
  embedding receives the clock reading as an explicit argument.
* The `int` locals of `cm_realspeed_get` are 32-bit two's-complement values:
  conversion to `int` and `int` multiplication wrap around (`to_i32`).
-/

namespace CrossMeter

/-- Modulus of `uint32_t` arithmetic. -/
def U32 : Nat := 4294967296

/-- Number of sub-second buckets, `#define CM_TIME_SLOT 10`. -/
def CM_TIME_SLOT : Nat := 10

/-- Number of horizons, the enumerator `CM_PEAK_NUM = 3`. -/
def CM_PEAK_NUM : Nat := 3

/-- The C `struct timeval`. -/
structure timeval where
  tv_sec : Int
  tv_usec : Int
deriving DecidableEq, Repr

/-- The valid values of `cm_period_e`. -/
inductive cm_period_e where
  | CM_PEAK_SHORT
  | CM_PEAK_MEDIUM
  | CM_PEAK_LONG
deriving DecidableEq, Repr

/-- A C array `T a[CM_PEAK_NUM]`: one element per horizon, in the order
`a[CM_PEAK_SHORT]`, `a[CM_PEAK_MEDIUM]`, `a[CM_PEAK_LONG]`. -/
structure peak_arr (α : Type) where
  short : α
  medium : α
  long : α
deriving DecidableEq, Repr

/-- Array read `a[h]` for a valid horizon `h`. -/
def peak_arr.get {α : Type} (a : peak_arr α) : cm_period_e → α
  | .CM_PEAK_SHORT => a.short
  | .CM_PEAK_MEDIUM => a.medium
  | .CM_PEAK_LONG => a.long

/-- The C `crossmeter_t`. `speed_slice` is the array of `CM_TIME_SLOT`
buckets, kept as a list whose accesses are bounds-checked. -/
structure crossmeter_t where
  last_ts : timeval
  peak_ts : peak_arr timeval
  peak_speed : peak_arr Nat
  peak_period : peak_arr Nat
  speed_slice : List Nat
  real_speed : Nat
deriving DecidableEq, Repr

/-- Conversion of a signed value to `uint32_t`. -/
def to_u32 (x : Int) : Nat := (x % (U32 : Int)).toNat

/-- The local array `period_default` of `cm_peakperiod_set(all)`. -/
def period_default : peak_arr Nat :=
  { short := 60 * 60, medium := 24 * 60 * 60, long := 30 * 24 * 60 * 60 }

/-- Embedding of `cm_peakperiod_setall`: copies the caller's array, or the
defaults when the caller passes `NULL`. -/
def cm_peakperiod_setall (pCM : crossmeter_t) (peak_period : Option (peak_arr Nat)) :
    crossmeter_t :=
  { pCM with
    peak_period :=
      match peak_period with
      | some p => p
      | none => period_default }

/-- The meter after `memset (pCM, 0, sizeof (*pCM))`. -/
def zeroed : crossmeter_t :=
  { last_ts := ⟨0, 0⟩
    peak_ts := ⟨⟨0, 0⟩, ⟨0, 0⟩, ⟨0, 0⟩⟩
    peak_speed := ⟨0, 0, 0⟩
    peak_period := ⟨0, 0, 0⟩
    speed_slice := List.replicate CM_TIME_SLOT 0
    real_speed := 0 }

/-- Embedding of `cm_speed_init`. -/
def cm_speed_init (peak_period : Option (peak_arr Nat)) : crossmeter_t :=
  cm_peakperiod_setall zeroed peak_period

/-- The comparison `pTS->tv_sec/period > peak_ts.tv_sec/period` of
`cm_peakspeed_update` (both operands `long`, C division). -/
def epoch_advanced (pTS stored : timeval) (period : Nat) : Bool :=
  decide (Int.tdiv stored.tv_sec (period : Int) < Int.tdiv pTS.tv_sec (period : Int))

/-- First half of `cm_peakspeed_update` (source lines 68-80): the nested
epoch roll-over checks. A division by a zero period is `none`. -/
def peak_rollover (pCM : crossmeter_t) (speed : Nat) (pTS : timeval) : Option crossmeter_t :=
  if pCM.peak_period.short = 0 then none
  else if epoch_advanced pTS pCM.peak_ts.short pCM.peak_period.short then
    let pCM := { pCM with peak_speed := { pCM.peak_speed with short := 0 } }
    if pCM.peak_period.medium = 0 then none
    else if epoch_advanced pTS pCM.peak_ts.medium pCM.peak_period.medium then
      let pCM := { pCM with
        peak_speed := { pCM.peak_speed with medium := speed }
        peak_ts := { pCM.peak_ts with medium := pTS } }
      if pCM.peak_period.long = 0 then none
      else if epoch_advanced pTS pCM.peak_ts.long pCM.peak_period.long then
        some { pCM with
          peak_speed := { pCM.peak_speed with long := speed }
          peak_ts := { pCM.peak_ts with long := pTS } }
      else some pCM
    else some pCM
  else some pCM

/-- Second half of `cm_peakspeed_update` (source lines 82-93): the cascade of
strict `>` comparisons. -/
def peak_cascade (pCM : crossmeter_t) (speed : Nat) (pTS : timeval) : crossmeter_t :=
  if speed > pCM.peak_speed.short then
    let pCM := { pCM with
      peak_speed := { pCM.peak_speed with short := speed }
      peak_ts := { pCM.peak_ts with short := pTS } }
    if speed > pCM.peak_speed.medium then
      let pCM := { pCM with
        peak_speed := { pCM.peak_speed with medium := speed }
        peak_ts := { pCM.peak_ts with medium := pTS } }
      if speed > pCM.peak_speed.long then
        { pCM with
          peak_speed := { pCM.peak_speed with long := speed }
          peak_ts := { pCM.peak_ts with long := pTS } }
      else pCM
    else pCM
  else pCM

/-- Embedding of `cm_peakspeed_update`. -/
def cm_peakspeed_update (pCM : crossmeter_t) (speed : Nat) (pTS : timeval) :
    Option crossmeter_t :=
  match peak_rollover pCM speed pTS with
  | none => none
  | some pCM => some (peak_cascade pCM speed pTS)

/-- The body `sum_rm += speed_slice[i]; speed_slice[i] = 0;` run for the `n`
consecutive indices `i, i+1, ..., i+n-1`. An index outside the array is
`none`. -/
def expire_range : Nat → Nat → List Nat → Nat → Option (List Nat × Nat)
  | 0, _, slice, sum_rm => some (slice, sum_rm)
  | n + 1, i, slice, sum_rm =>
    match slice[i]? with
    | none => none
    | some v => expire_range n (i + 1) (slice.set i 0) ((sum_rm + v) % U32)

/-- The `else` branch of `cm_speed_feed` (source lines 120-135): partial
rotation from `last_slot` to `cur_slot`. The loop `for (i = a; i <= b; ++i)`
is `expire_range (b + 1 - a) a`, the loop `for (i = a; i < CM_TIME_SLOT; ++i)`
is `expire_range (CM_TIME_SLOT - a) a`. -/
def rotate (slice : List Nat) (last_slot cur_slot : Nat) : Option (List Nat × Nat) :=
  if cur_slot > last_slot then
    expire_range (cur_slot + 1 - (last_slot + 1)) (last_slot + 1) slice 0
  else if cur_slot < last_slot then
    match expire_range (CM_TIME_SLOT - (last_slot + 1) % U32) ((last_slot + 1) % U32) slice 0 with
    | none => none
    | some (slice, sum_rm) => expire_range (cur_slot + 1) 0 slice sum_rm
  else some (slice, 0)

/-- The stale-input test of `cm_speed_feed` (source lines 108-109). -/
def stale (pCM : crossmeter_t) (pTS : timeval) : Bool :=
  decide (pTS.tv_sec < pCM.last_ts.tv_sec) ||
    (decide (pTS.tv_sec = pCM.last_ts.tv_sec) && decide (pTS.tv_usec < pCM.last_ts.tv_usec))

/-- The local `sec_diff` of `cm_speed_feed`. -/
def sec_diff (pCM : crossmeter_t) (pTS : timeval) : Nat :=
  to_u32 (pTS.tv_sec - pCM.last_ts.tv_sec)

/-- The local `us_diff` of `cm_speed_feed`: the product is taken in
`uint32_t`, the sum with the two `long` fields is then converted back. -/
def us_diff (pCM : crossmeter_t) (pTS : timeval) : Nat :=
  to_u32 (((sec_diff pCM pTS * 1000000 % U32 : Nat) : Int) + pTS.tv_usec - pCM.last_ts.tv_usec)

/-- The test `(sec_diff > 1) || (us_diff >= 1000000)` of `cm_speed_feed`. -/
def window_expired (pCM : crossmeter_t) (pTS : timeval) : Bool :=
  decide (sec_diff pCM pTS > 1) || decide (us_diff pCM pTS ≥ 1000000)

/-- Bucket index `tv_usec / (1000000/CM_TIME_SLOT)` stored in a `uint32_t`. -/
def slot_of (ts : timeval) : Nat :=
  to_u32 (Int.tdiv ts.tv_usec ((1000000 / CM_TIME_SLOT : Nat) : Int))

/-- Embedding of `cm_speed_feed`: the new meter and the returned rate. -/
def cm_speed_feed (pCM : crossmeter_t) (inc_val : Nat) (pTS : timeval) :
    Option (crossmeter_t × Nat) :=
  if stale pCM pTS then some (pCM, pCM.real_speed)
  else
    let cur_slot := slot_of pTS
    let rot : Option (List Nat × Nat × Nat) :=
      if window_expired pCM pTS then
        some (List.replicate CM_TIME_SLOT 0, 0, 0)
      else
        match rotate pCM.speed_slice (slot_of pCM.last_ts) cur_slot with
        | none => none
        | some (slice, sum_rm) => some (slice, pCM.real_speed, sum_rm)
    match rot with
    | none => none
    | some (slice, real, sum_rm) =>
      match slice[cur_slot]? with
      | none => none
      | some v =>
        let real := (real + inc_val) % U32
        let real := (real + (U32 - sum_rm % U32)) % U32
        let pCM := { pCM with
          speed_slice := slice.set cur_slot ((v + inc_val) % U32)
          real_speed := real }
        match cm_peakspeed_update pCM pCM.real_speed pTS with
        | none => none
        | some pCM =>
          let pCM := { pCM with last_ts := pTS }
          some (pCM, pCM.real_speed)

/-- Embedding of `cm_realspeed_get` with `bReal != 0`: a feed of `0` at the
clock reading `now`. -/
def cm_realspeed_get_real (pCM : crossmeter_t) (now : timeval) : Option (crossmeter_t × Nat) :=
  cm_speed_feed pCM 0 now

/-- Array read `a[i]` with a numeric selector; outside the array is `none`. -/
def peak_arr.idx {α : Type} (a : peak_arr α) : Nat → Option α
  | 0 => some a.short
  | 1 => some a.medium
  | 2 => some a.long
  | _ => none

/-- Numeric value of a horizon selector. -/
def cm_period_e.val : cm_period_e → Nat
  | .CM_PEAK_SHORT => 0
  | .CM_PEAK_MEDIUM => 1
  | .CM_PEAK_LONG => 2

/-- Embedding of `cm_peakspeed_get` at the clock reading `now`: the new
meter, the returned peak and the timestamp stored through `pPeakTS` (`none`
when nothing is stored). -/
def cm_peakspeed_get (pCM : crossmeter_t) (period_type : Nat) (now : timeval) :
    Option (crossmeter_t × Nat × Option timeval) :=
  if period_type ≥ CM_PEAK_NUM then some (pCM, 0, none)
  else
    match cm_peakspeed_update pCM 0 now with
    | none => none
    | some pCM =>
      match pCM.peak_speed.idx period_type, pCM.peak_ts.idx period_type with
      | some v, some ts => some (pCM, v, some ts)
      | _, _ => none

/-- Embedding of `cm_peakspeed_getall` at the clock reading `now`: the new
meter and the two arrays copied out. -/
def cm_peakspeed_getall (pCM : crossmeter_t) (now : timeval) :
    Option (crossmeter_t × peak_arr Nat × peak_arr timeval) :=
  match cm_peakspeed_update pCM 0 now with
  | none => none
  | some pCM => some (pCM, pCM.peak_speed, pCM.peak_ts)

/-- Array write `a[i] = v` with a numeric selector inside the array. -/
def peak_arr.set {α : Type} (a : peak_arr α) (i : Nat) (v : α) : peak_arr α :=
  match i with
  | 0 => { a with short := v }
  | 1 => { a with medium := v }
  | 2 => { a with long := v }
  | _ => a

/-- Embedding of `cm_peakperiod_get`. -/
def cm_peakperiod_get (pCM : crossmeter_t) (period_type : Nat) : Nat :=
  if period_type ≥ CM_PEAK_NUM then 0
  else
    match pCM.peak_period.idx period_type with
    | some v => v
    | none => 0

/-- Embedding of `cm_peakperiod_set`. -/
def cm_peakperiod_set (pCM : crossmeter_t) (period_type : Nat) (peak_period : Nat) :
    crossmeter_t :=
  if period_type < CM_PEAK_NUM then
    match period_default.idx period_type with
    | some d =>
      { pCM with
        peak_period :=
          pCM.peak_period.set period_type (if peak_period > 0 then peak_period else d) }
    | none => pCM
  else pCM

/-- Conversion of a signed value to a 32-bit `int`, wrapping around. -/
def to_i32 (x : Int) : Int := (x + 2147483648) % 4294967296 - 2147483648

/-- Embedding of `cm_realspeed_get` at the clock reading `now`: the meter
after the call and the returned rate. `bReal` is the C `int` flag. -/
def cm_realspeed_get (pCM : crossmeter_t) (bReal : Int) (now : timeval) :
    Option (crossmeter_t × Nat) :=
  if bReal ≠ 0 then cm_speed_feed pCM 0 now
  else
    let sec_diff : Int := to_i32 (now.tv_sec - pCM.last_ts.tv_sec)
    let us_diff : Int :=
      to_i32 (to_i32 (sec_diff * 1000000) + now.tv_usec - pCM.last_ts.tv_usec)
    if sec_diff > 1 ∨ us_diff ≥ 1000000 then some (pCM, 0)
    else some (pCM, pCM.real_speed)

/-! ## Vocabulary of the properties -/

/-- A `tv_usec` in the range of a normalised `timeval`. -/
def usec_ok (ts : timeval) : Prop := 0 ≤ ts.tv_usec ∧ ts.tv_usec < 1000000

instance (ts : timeval) : Decidable (usec_ok ts) := by
  unfold usec_ok; infer_instance

/-- All three periods are positive. -/
def periods_pos (p : peak_arr Nat) : Prop := 0 < p.short ∧ 0 < p.medium ∧ 0 < p.long

instance (p : peak_arr Nat) : Decidable (periods_pos p) := by
  unfold periods_pos; infer_instance

/-- MEDIUM is a multiple of SHORT and LONG a multiple of MEDIUM. -/
def periods_nested (p : peak_arr Nat) : Prop := p.short ∣ p.medium ∧ p.medium ∣ p.long

instance (p : peak_arr Nat) : Decidable (periods_nested p) := by
  unfold periods_nested; infer_instance

/-- Timestamp order: by seconds, then by microseconds. -/
def ts_le (a b : timeval) : Prop :=
  a.tv_sec < b.tv_sec ∨ (a.tv_sec = b.tv_sec ∧ a.tv_usec ≤ b.tv_usec)

instance (a b : timeval) : Decidable (ts_le a b) := by
  unfold ts_le; infer_instance

/-- A sequence of timestamps in which no element is earlier than a previous one. -/
def nondecreasing (l : List timeval) : Prop := l.Pairwise ts_le

instance (l : List timeval) : Decidable (nondecreasing l) := by
  unfold nondecreasing; infer_instance

/-- A timestamp in microseconds. -/
def micros (ts : timeval) : Int := ts.tv_sec * 1000000 + ts.tv_usec

/-- Epoch index `floor(tv_sec / period)` as the source computes it. -/
def epoch (ts : timeval) (period : Nat) : Int := Int.tdiv ts.tv_sec (period : Int)

/-- The array type and the value ranges of a `crossmeter_t`: `CM_TIME_SLOT`
buckets and positive periods. -/
def well_formed (m : crossmeter_t) : Prop :=
  m.speed_slice.length = CM_TIME_SLOT ∧ periods_pos m.peak_period

instance (m : crossmeter_t) : Decidable (well_formed m) := by
  unfold well_formed; infer_instance

/-- A sequence of `cm_speed_feed` calls `(inc_val, timestamp)`; the result is
the final meter and the rate returned by the last call (`r` for no call). -/
def feed_all (m : crossmeter_t) (r : Nat) : List (Nat × timeval) → Option (crossmeter_t × Nat)
  | [] => some (m, r)
  | f :: fs =>
    match cm_speed_feed m f.1 f.2 with
    | none => none
    | some (m', r') => feed_all m' r' fs

/-- Timestamp of the last call of a feed sequence (`t` for no call). -/
def last_ts_of (t : timeval) : List (Nat × timeval) → timeval
  | [] => t
  | f :: fs => last_ts_of f.2 fs

/-- Sum of the increments of a feed sequence. -/
def inc_sum (fs : List (Nat × timeval)) : Nat := (fs.map Prod.fst).sum

/-- An operation that reaches the peak tracker: a feed, or a peak query at a
clock reading. -/
inductive meter_op where
  | feed (inc_val : Nat) (ts : timeval)
  | peaks (now : timeval)
deriving DecidableEq, Repr

/-- Timestamp of an operation. -/
def meter_op.ts : meter_op → timeval
  | .feed _ ts => ts
  | .peaks now => now

/-- One operation on the meter. -/
def apply_op (m : crossmeter_t) : meter_op → Option crossmeter_t
  | .feed inc_val ts => (cm_speed_feed m inc_val ts).map Prod.fst
  | .peaks now => (cm_peakspeed_getall m now).map Prod.fst

/-- A sequence of operations on the meter. -/
def run_ops (m : crossmeter_t) : List meter_op → Option crossmeter_t
  | [] => some m
  | op :: ops =>
    match apply_op m op with
    | none => none
    | some m' => run_ops m' ops

/-! ## Auxiliary definitions of the proofs -/

/-- The rate-meter part of an accepted `cm_speed_feed` (source lines
112-140), before the peak update. -/
def feed_window (m : crossmeter_t) (inc_val : Nat) (ts : timeval) : Option crossmeter_t :=
  let rot : Option (List Nat × Nat × Nat) :=
    if window_expired m ts then some (List.replicate CM_TIME_SLOT 0, 0, 0)
    else
      match rotate m.speed_slice (slot_of m.last_ts) (slot_of ts) with
      | none => none
      | some (slice, sum_rm) => some (slice, m.real_speed, sum_rm)
  match rot with
  | none => none
  | some (slice, real, sum_rm) =>
    match slice[slot_of ts]? with
    | none => none
    | some v =>
      some { m with
        speed_slice := slice.set (slot_of ts) ((v + inc_val) % U32)
        real_speed := ((real + inc_val) % U32 + (U32 - sum_rm % U32)) % U32 }

/-- Index of the 100 ms slice of a timestamp, counted from the epoch. -/
def gslot (ts : timeval) : Int := ts.tv_sec * 10 + ts.tv_usec / 100000

/-- Bucket `j` is visited by a partial rotation from `last_slot` to `cur_slot`. -/
def visited (last_slot cur_slot j : Nat) : Prop :=
  (last_slot < cur_slot ∧ last_slot < j ∧ j ≤ cur_slot) ∨
    (cur_slot < last_slot ∧ (last_slot < j ∨ j ≤ cur_slot))

/-- State of the meter while every increment fed since slice `g0` is still in
the window: the rate is the sum `S` fed so far and every bucket that belongs to
no slice of `g0 .. gslot last_ts` is empty. -/
def conserved (g0 : Int) (S : Nat) (m : crossmeter_t) : Prop :=
  well_formed m ∧ usec_ok m.last_ts ∧ g0 ≤ gslot m.last_ts ∧ gslot m.last_ts ≤ g0 + 9 ∧
    m.real_speed = S ∧
    ∀ j, j < CM_TIME_SLOT →
      (∀ g, g0 ≤ g → g ≤ gslot m.last_ts → g % 10 ≠ (j : Int)) → m.speed_slice[j]? = some 0

/-- Feed sequence on which the one-second form of window conservation fails:
the last timestamp is 990 ms after the first. -/
def lapped_feeds : List (Nat × timeval) :=
  [(5, ⟨0, 50000⟩), (1, ⟨0, 150000⟩), (1, ⟨1, 40000⟩)]

/-- Feed sequence that revisits slot 9 one second later without leaving it in
between. -/
def same_slot_feeds : List (Nat × timeval) :=
  [(5, ⟨0, 50000⟩), (0, ⟨0, 950000⟩), (0, ⟨1, 900000⟩)]

/-- Sum of the increments of the feeds whose timestamp lies in
`(T - 1,000,000 us, T]`. -/
def recent_sum (T : timeval) (fs : List (Nat × timeval)) : Nat :=
  inc_sum (fs.filter fun f => decide (micros T - 1000000 < micros f.2 ∧ micros f.2 ≤ micros T))

/-- The peak state of `m1` is the peak state of `m`. -/
def same_peaks (m1 m : crossmeter_t) : Prop :=
  m1.peak_ts = m.peak_ts ∧ m1.peak_speed = m.peak_speed ∧ m1.peak_period = m.peak_period

/-- SHORT's peak does not exceed MEDIUM's and no stored peak timestamp is
later than second `c`. -/
def peak_inv (c : Int) (m : crossmeter_t) : Prop :=
  m.peak_speed.short ≤ m.peak_speed.medium ∧ m.peak_ts.short.tv_sec ≤ c ∧
    m.peak_ts.medium.tv_sec ≤ c ∧ m.peak_ts.long.tv_sec ≤ c

/-- The stored peak timestamps are not negative, SHORT's lies in no later
MEDIUM epoch than MEDIUM's, and MEDIUM's in no later LONG epoch than LONG's. -/
def nest_peaks (m : crossmeter_t) : Prop :=
  0 ≤ m.peak_ts.short.tv_sec ∧ 0 ≤ m.peak_ts.medium.tv_sec ∧ 0 ≤ m.peak_ts.long.tv_sec ∧
    epoch m.peak_ts.short m.peak_period.medium ≤ epoch m.peak_ts.medium m.peak_period.medium ∧
    epoch m.peak_ts.medium m.peak_period.long ≤ epoch m.peak_ts.long m.peak_period.long

instance (last_slot cur_slot j : Nat) : Decidable (visited last_slot cur_slot j) := by
  unfold visited; infer_instance

/-- Sum of the elements of a list whose index, counted from `k`, satisfies `P`. -/
def masked_sum (P : Nat → Bool) : Nat → List Nat → Nat
  | _, [] => 0
  | k, a :: l => (if P k then a else 0) + masked_sum P (k + 1) l

/-- Sum of the buckets visited by a partial rotation from `last_slot` to
`cur_slot`. -/
def cleared_sum (slice : List Nat) (last_slot cur_slot : Nat) : Nat :=
  masked_sum (fun j => decide (visited last_slot cur_slot j)) 0 slice

/-- A sequence of `cm_speed_feed` calls together with the log of the accepted
ones, most recent first: timestamp, increment and returned rate. The result
also carries the rate returned by the last call (`r` for no call). -/
def feed_log (m : crossmeter_t) (r : Nat) (log : List (timeval × Nat × Nat)) :
    List (Nat × timeval) → Option (crossmeter_t × Nat × List (timeval × Nat × Nat))
  | [] => some (m, r, log)
  | f :: fs =>
    match cm_speed_feed m f.1 f.2 with
    | none => none
    | some (m', r') =>
      feed_log m' r' (if stale m f.2 then log else (f.2, f.1, r') :: log) fs

/-- Largest returned rate among the logged feeds whose `tv_sec` lies in the
same epoch of length `period` as `t` (0 when there is none). -/
def epoch_max (period : Nat) (t : timeval) : List (timeval × Nat × Nat) → Nat
  | [] => 0
  | x :: log =>
    if epoch x.1 period = epoch t period then max x.2.2 (epoch_max period t log)
    else epoch_max period t log

/-- The peak state `ma` is what the roll-over checks of `cm_peakspeed_update`
make of the peak state of `m` for the sample `(s, t)`. -/
def rollover_of (m ma : crossmeter_t) (s : Nat) (t : timeval) : Prop :=
  ma.peak_speed.short =
      (if epoch m.peak_ts.short m.peak_period.short < epoch t m.peak_period.short then 0
        else m.peak_speed.short) ∧
  ma.peak_ts.short = m.peak_ts.short ∧
  ma.peak_speed.medium =
      (if epoch m.peak_ts.short m.peak_period.short < epoch t m.peak_period.short ∧
          epoch m.peak_ts.medium m.peak_period.medium < epoch t m.peak_period.medium then s
        else m.peak_speed.medium) ∧
  ma.peak_ts.medium =
      (if epoch m.peak_ts.short m.peak_period.short < epoch t m.peak_period.short ∧
          epoch m.peak_ts.medium m.peak_period.medium < epoch t m.peak_period.medium then t
        else m.peak_ts.medium) ∧
  ma.peak_speed.long =
      (if epoch m.peak_ts.short m.peak_period.short < epoch t m.peak_period.short ∧
          epoch m.peak_ts.medium m.peak_period.medium < epoch t m.peak_period.medium ∧
          epoch m.peak_ts.long m.peak_period.long < epoch t m.peak_period.long then s
        else m.peak_speed.long) ∧
  ma.peak_ts.long =
      (if epoch m.peak_ts.short m.peak_period.short < epoch t m.peak_period.short ∧
          epoch m.peak_ts.medium m.peak_period.medium < epoch t m.peak_period.medium ∧
          epoch m.peak_ts.long m.peak_period.long < epoch t m.peak_period.long then t
        else m.peak_ts.long)

/-- The peak state of `m'` is what the cascade of `cm_peakspeed_update` makes
of the peak state of `ma` for the sample `(s, t)`. -/
def cascade_of (ma m' : crossmeter_t) (s : Nat) (t : timeval) : Prop :=
  m'.peak_speed.short = (if ma.peak_speed.short < s then s else ma.peak_speed.short) ∧
  m'.peak_ts.short = (if ma.peak_speed.short < s then t else ma.peak_ts.short) ∧
  m'.peak_speed.medium =
      (if ma.peak_speed.short < s ∧ ma.peak_speed.medium < s then s
        else ma.peak_speed.medium) ∧
  m'.peak_ts.medium =
      (if ma.peak_speed.short < s ∧ ma.peak_speed.medium < s then t else ma.peak_ts.medium) ∧
  m'.peak_speed.long =
      (if ma.peak_speed.short < s ∧ ma.peak_speed.medium < s ∧ ma.peak_speed.long < s then s
        else ma.peak_speed.long) ∧
  m'.peak_ts.long =
      (if ma.peak_speed.short < s ∧ ma.peak_speed.medium < s ∧ ma.peak_speed.long < s then t
        else ma.peak_ts.long)

/-- Invariant behind the exact SHORT peak: the log is not later than
`last_ts`, SHORT's peak is the largest logged rate of the SHORT epoch of
`last_ts`, and it is 0 while SHORT's stored timestamp is from an older epoch. -/
def short_inv (m : crossmeter_t) (log : List (timeval × Nat × Nat)) : Prop :=
  periods_pos m.peak_period ∧ 0 ≤ m.last_ts.tv_sec ∧
  (∀ x ∈ log, x.1.tv_sec ≤ m.last_ts.tv_sec) ∧
  m.peak_ts.short.tv_sec ≤ m.last_ts.tv_sec ∧
  m.peak_speed.short = epoch_max m.peak_period.short m.last_ts log ∧
  (epoch m.peak_ts.short m.peak_period.short < epoch m.last_ts m.peak_period.short →
    m.peak_speed.short = 0) ∧
  (∀ x, log.head? = some x → x.1 = m.last_ts)

/-- Invariant behind the exact MEDIUM peak under a MEDIUM period that is a
multiple of the SHORT period. -/
def medium_inv (m : crossmeter_t) (log : List (timeval × Nat × Nat)) : Prop :=
  periods_pos m.peak_period ∧ m.peak_period.short ∣ m.peak_period.medium ∧
  0 ≤ m.last_ts.tv_sec ∧ (∀ x ∈ log, x.1.tv_sec ≤ m.last_ts.tv_sec) ∧
  0 ≤ m.peak_ts.short.tv_sec ∧ m.peak_ts.short.tv_sec ≤ m.last_ts.tv_sec ∧
  0 ≤ m.peak_ts.medium.tv_sec ∧ m.peak_ts.medium.tv_sec ≤ m.last_ts.tv_sec ∧
  epoch m.peak_ts.medium m.peak_period.medium = epoch m.last_ts m.peak_period.medium ∧
  m.peak_speed.medium = epoch_max m.peak_period.medium m.last_ts log ∧
  m.peak_speed.short ≤ m.peak_speed.medium ∧
  epoch m.peak_ts.short m.peak_period.medium ≤ epoch m.peak_ts.medium m.peak_period.medium ∧
  (∀ x, log.head? = some x → x.1 = m.last_ts)

/-- Sum of the logged increments that fall into bucket `j` and into one of
the ten 100 ms slices that end with slice `g`. -/
def held (g : Int) (j : Nat) : List (timeval × Nat × Nat) → Nat
  | [] => 0
  | x :: log =>
    (if gslot x.1 % 10 = (j : Int) ∧ g - gslot x.1 ≤ 9 then x.2.1 else 0) + held g j log

/-- Sum of the logged increments that fall into one of the ten 100 ms slices
that end with slice `g`. -/
def recent_g (g : Int) : List (timeval × Nat × Nat) → Nat
  | [] => 0
  | x :: log => (if g - gslot x.1 ≤ 9 then x.2.1 else 0) + recent_g g log

/-- Sum of the logged increments whose timestamp is at most 900,000 us before
`T`. -/
def recent_inc (T : timeval) : List (timeval × Nat × Nat) → Nat
  | [] => 0
  | x :: log =>
    (if micros x.1 ≤ micros T ∧ micros T - micros x.1 ≤ 900000 then x.2.1 else 0)
      + recent_inc T log

/-- Rate state while no recent increment has been dropped: the rate is the
exact sum of the buckets and bucket `j` holds at least the logged increments of
its slot from the last ten slices. -/
def kept (m : crossmeter_t) (log : List (timeval × Nat × Nat)) : Prop :=
  usec_ok m.last_ts ∧
  (∀ x ∈ log, gslot x.1 ≤ gslot m.last_ts) ∧
  m.real_speed = m.speed_slice.sum ∧
  (∀ j, j < CM_TIME_SLOT →
    ∃ v, m.speed_slice[j]? = some v ∧ held (gslot m.last_ts) j log ≤ v) ∧
  (∀ x, log.head? = some x → x.1 = m.last_ts)

/-- The invariant of a feed sequence that ends with a feed of `B` at `T`:
`kept`, no overflow ahead, and timestamps that never run backwards once a feed
has been accepted. -/
def kept_run (B : Nat) (T : timeval) (fs : List (Nat × timeval)) (m : crossmeter_t)
    (log : List (timeval × Nat × Nat)) : Prop :=
  kept m log ∧ m.speed_slice.sum + inc_sum fs + B < U32 ∧
  nondecreasing (fs.map Prod.snd ++ [T]) ∧
  (log ≠ [] → ∀ t ∈ fs.map Prod.snd ++ [T], ts_le m.last_ts t)

/-! ## Arithmetic and array lemmas -/

theorem slot_of_eq (ts : timeval) (h : usec_ok ts) :
    (slot_of ts : Int) = ts.tv_usec / 100000 ∧ slot_of ts < 10 := by
  obtain ⟨h1, h2⟩ := h
  have e : Int.tdiv ts.tv_usec ((1000000 / CM_TIME_SLOT : Nat) : Int) = ts.tv_usec / 100000 := by
    rw [Int.tdiv_eq_ediv h1 (by unfold CM_TIME_SLOT; norm_num)]
    unfold CM_TIME_SLOT; norm_num
  unfold slot_of to_u32 U32
  rw [e]
  omega

theorem sum_set_add (l : List Nat) (i v x : Nat) (h : l[i]? = some v) :
    (l.set i x).sum + v = l.sum + x := by
  induction l generalizing i with
  | nil => simp at h
  | cons a t ih =>
    cases i with
    | zero =>
      simp at h
      subst h
      simp
      omega
    | succ k =>
      simp at h
      have := ih k h
      simp
      omega

theorem set_self (l : List Nat) (i v : Nat) (h : l[i]? = some v) : l.set i v = l := by
  induction l generalizing i with
  | nil => simp
  | cons a t ih =>
    cases i with
    | zero => simp at h; simp [h]
    | succ k => simp at h; simp [ih k h]

theorem expire_range_ok (n : Nat) : ∀ (i : Nat) (slice : List Nat) (s : Nat),
    i + n ≤ slice.length →
    ∃ sl s', expire_range n i slice s = some (sl, s') ∧ sl.length = slice.length ∧
      (sl.sum + s') % U32 = (slice.sum + s) % U32 := by
  induction n with
  | zero => intro i slice s _; exact ⟨slice, s, rfl, rfl, rfl⟩
  | succ n ih =>
    intro i slice s h
    have hi : i < slice.length := by omega
    have hget : slice[i]? = some slice[i] := List.getElem?_eq_getElem hi
    obtain ⟨sl, s', h1, h2, h3⟩ :=
      ih (i + 1) (slice.set i 0) ((s + slice[i]) % U32) (by simp; omega)
    refine ⟨sl, s', ?_, ?_, ?_⟩
    · simp only [expire_range, hget]; exact h1
    · simpa using h2
    · have := sum_set_add slice i slice[i] 0 hget
      rw [h3]
      unfold U32
      omega

theorem expire_range_zero (n : Nat) : ∀ (i : Nat) (slice : List Nat),
    (∀ j, i ≤ j → j < i + n → slice[j]? = some 0) →
    expire_range n i slice 0 = some (slice, 0) := by
  induction n with
  | zero => intro i slice _; rfl
  | succ n ih =>
    intro i slice h
    have hget : slice[i]? = some 0 := h i (le_refl _) (by omega)
    simp only [expire_range, hget, set_self slice i 0 hget]
    have : (0 + 0) % U32 = 0 := by decide
    rw [this]
    exact ih (i + 1) slice (fun j h1 h2 => h j (by omega) (by omega))

theorem rotate_ok (slice : List Nat) (last_slot cur_slot : Nat)
    (hl : slice.length = CM_TIME_SLOT) (hc : cur_slot < CM_TIME_SLOT) :
    ∃ sl s', rotate slice last_slot cur_slot = some (sl, s') ∧ sl.length = CM_TIME_SLOT ∧
      (sl.sum + s') % U32 = slice.sum % U32 := by
  unfold rotate
  unfold CM_TIME_SLOT at hl hc
  split_ifs with h1 h2
  · obtain ⟨sl, s', e, l, q⟩ :=
      expire_range_ok (cur_slot + 1 - (last_slot + 1)) (last_slot + 1) slice 0 (by omega)
    exact ⟨sl, s', e, by unfold CM_TIME_SLOT; omega, by simpa using q⟩
  · have first : ∃ sl s', expire_range (CM_TIME_SLOT - (last_slot + 1) % U32)
          ((last_slot + 1) % U32) slice 0 = some (sl, s') ∧ sl.length = slice.length ∧
          (sl.sum + s') % U32 = (slice.sum + 0) % U32 := by
      by_cases hs : (last_slot + 1) % U32 ≤ 10
      · exact expire_range_ok _ _ slice 0 (by unfold CM_TIME_SLOT; omega)
      · have : CM_TIME_SLOT - (last_slot + 1) % U32 = 0 := by unfold CM_TIME_SLOT; omega
        rw [this]
        exact ⟨slice, 0, rfl, rfl, rfl⟩
    obtain ⟨sl, s', e, l, q⟩ := first
    obtain ⟨sl2, s2, e2, l2, q2⟩ := expire_range_ok (cur_slot + 1) 0 sl s' (by omega)
    refine ⟨sl2, s2, ?_, by unfold CM_TIME_SLOT; omega, ?_⟩
    · simp only [e]; exact e2
    · rw [q2, q]; simp
  · exact ⟨slice, 0, rfl, by unfold CM_TIME_SLOT; omega, rfl⟩

/-! ## Structure of a feed -/

theorem cm_speed_feed_stale (m : crossmeter_t) (inc_val : Nat) (ts : timeval)
    (h : stale m ts = true) : cm_speed_feed m inc_val ts = some (m, m.real_speed) := by
  simp [cm_speed_feed, h]

theorem cm_speed_feed_accept (m : crossmeter_t) (inc_val : Nat) (ts : timeval)
    (h : stale m ts = false) :
    cm_speed_feed m inc_val ts =
      match feed_window m inc_val ts with
      | none => none
      | some m1 =>
        match cm_peakspeed_update m1 m1.real_speed ts with
        | none => none
        | some m2 => some ({ m2 with last_ts := ts }, m2.real_speed) := by
  unfold cm_speed_feed feed_window
  simp only [h, Bool.false_eq_true, if_false]
  generalize (if window_expired m ts = true then some (List.replicate CM_TIME_SLOT 0, 0, 0)
    else
      match rotate m.speed_slice (slot_of m.last_ts) (slot_of ts) with
      | none => none
      | some (slice, sum_rm) => some (slice, m.real_speed, sum_rm)) = rot
  cases rot with
  | none => rfl
  | some r =>
    obtain ⟨slice, real, sum_rm⟩ := r
    dsimp only
    cases slice[slot_of ts]? with
    | none => rfl
    | some v => rfl

theorem peak_cascade_frame (m : crossmeter_t) (s : Nat) (t : timeval) :
    (peak_cascade m s t).last_ts = m.last_ts ∧
      (peak_cascade m s t).peak_period = m.peak_period ∧
      (peak_cascade m s t).speed_slice = m.speed_slice ∧
      (peak_cascade m s t).real_speed = m.real_speed := by
  unfold peak_cascade
  dsimp only
  split_ifs <;> simp

theorem peak_rollover_frame (m m' : crossmeter_t) (s : Nat) (t : timeval)
    (h : peak_rollover m s t = some m') :
    m'.last_ts = m.last_ts ∧ m'.peak_period = m.peak_period ∧
      m'.speed_slice = m.speed_slice ∧ m'.real_speed = m.real_speed := by
  unfold peak_rollover at h
  dsimp only at h
  split_ifs at h <;> simp at h <;> subst h <;> simp

theorem peak_rollover_total (m : crossmeter_t) (s : Nat) (t : timeval)
    (h : periods_pos m.peak_period) : ∃ m', peak_rollover m s t = some m' := by
  obtain ⟨h1, h2, h3⟩ := h
  unfold peak_rollover
  dsimp only
  simp only [Nat.pos_iff_ne_zero.mp h1, Nat.pos_iff_ne_zero.mp h2, Nat.pos_iff_ne_zero.mp h3,
    if_false]
  split_ifs <;> exact ⟨_, rfl⟩

theorem peak_update_frame (m m' : crossmeter_t) (s : Nat) (t : timeval)
    (h : cm_peakspeed_update m s t = some m') :
    m'.last_ts = m.last_ts ∧ m'.peak_period = m.peak_period ∧
      m'.speed_slice = m.speed_slice ∧ m'.real_speed = m.real_speed := by
  unfold cm_peakspeed_update at h
  split at h
  · simp at h
  · rename_i m1 h1
    simp at h
    subst h
    obtain ⟨a, b, c, d⟩ := peak_rollover_frame m m1 s t h1
    obtain ⟨a', b', c', d'⟩ := peak_cascade_frame m1 s t
    exact ⟨a'.trans a, b'.trans b, c'.trans c, d'.trans d⟩

theorem peak_update_total (m : crossmeter_t) (s : Nat) (t : timeval)
    (h : periods_pos m.peak_period) :
    ∃ m', cm_peakspeed_update m s t = some m' ∧ m'.last_ts = m.last_ts ∧
      m'.peak_period = m.peak_period ∧ m'.speed_slice = m.speed_slice ∧
      m'.real_speed = m.real_speed := by
  obtain ⟨m1, h1⟩ := peak_rollover_total m s t h
  have e : cm_peakspeed_update m s t = some (peak_cascade m1 s t) := by
    unfold cm_peakspeed_update; rw [h1]
  exact ⟨_, e, peak_update_frame m _ s t e⟩

theorem feed_window_total (m : crossmeter_t) (inc_val : Nat) (ts : timeval)
    (hw : well_formed m) (hu : usec_ok ts) :
    ∃ m1, feed_window m inc_val ts = some m1 ∧ m1.last_ts = m.last_ts ∧
      m1.peak_ts = m.peak_ts ∧ m1.peak_speed = m.peak_speed ∧
      m1.peak_period = m.peak_period ∧ m1.speed_slice.length = CM_TIME_SLOT ∧
      (m.real_speed = m.speed_slice.sum % U32 → m1.real_speed = m1.speed_slice.sum % U32) := by
  obtain ⟨hlen, _⟩ := hw
  have hc : slot_of ts < CM_TIME_SLOT := (slot_of_eq ts hu).2
  unfold feed_window
  by_cases he : window_expired m ts = true
  · have hget : (List.replicate CM_TIME_SLOT 0)[slot_of ts]? = some 0 := by
      rw [List.getElem?_replicate]; simp [hc]
    simp only [he, if_true, hget]
    refine ⟨_, rfl, rfl, rfl, rfl, rfl, by simp, ?_⟩
    intro _
    have := sum_set_add (List.replicate CM_TIME_SLOT 0) (slot_of ts) 0 ((0 + inc_val) % U32) hget
    simp only [List.sum_replicate, smul_eq_mul, mul_zero] at this
    simp only [Nat.add_zero] at this
    dsimp only
    rw [this]
    unfold U32
    omega
  · obtain ⟨sl, s', e, l, q⟩ := rotate_ok m.speed_slice (slot_of m.last_ts) (slot_of ts) hlen hc
    have hget : sl[slot_of ts]? = some sl[slot_of ts] :=
      List.getElem?_eq_getElem (by omega)
    simp only [Bool.not_eq_true] at he
    simp only [he, Bool.false_eq_true, if_false, e, hget]
    refine ⟨_, rfl, rfl, rfl, rfl, rfl, by simpa using l, ?_⟩
    intro hinv
    have := sum_set_add sl (slot_of ts) sl[slot_of ts] ((sl[slot_of ts] + inc_val) % U32) hget
    dsimp only
    rw [hinv]
    unfold U32 at *
    omega

theorem cm_speed_feed_total (m : crossmeter_t) (inc_val : Nat) (ts : timeval)
    (hw : well_formed m) (hu : usec_ok ts) :
    ∃ m' r, cm_speed_feed m inc_val ts = some (m', r) ∧ r = m'.real_speed ∧ well_formed m' ∧
      m'.peak_period = m.peak_period ∧
      (m.real_speed = m.speed_slice.sum % U32 → m'.real_speed = m'.speed_slice.sum % U32) := by
  by_cases hs : stale m ts = true
  · exact ⟨m, m.real_speed, cm_speed_feed_stale m inc_val ts hs, rfl, hw, rfl, id⟩
  · simp only [Bool.not_eq_true] at hs
    obtain ⟨m1, e1, _, _, _, hp, hl, hinv⟩ := feed_window_total m inc_val ts hw hu
    obtain ⟨m2, e2, _, hp2, hs2, hr2⟩ :=
      peak_update_total m1 m1.real_speed ts (by rw [hp]; exact hw.2)
    refine ⟨{ m2 with last_ts := ts }, m2.real_speed, ?_, rfl, ?_, ?_, ?_⟩
    · rw [cm_speed_feed_accept m inc_val ts hs]; simp only [e1, e2]
    · exact ⟨by simpa [hs2] using hl, by simpa [hp2, hp] using hw.2⟩
    · simp [hp2, hp]
    · intro h; simpa [hs2, hr2] using hinv h

theorem stale_false_iff (m : crossmeter_t) (ts : timeval) :
    stale m ts = false ↔ ts_le m.last_ts ts := by
  unfold stale ts_le
  simp only [Bool.or_eq_false_iff, Bool.and_eq_false_imp, decide_eq_false_iff_not,
    decide_eq_true_eq]
  constructor
  · rintro ⟨h1, h2⟩
    by_cases e : ts.tv_sec = m.last_ts.tv_sec
    · have := h2 e; omega
    · omega
  · intro h
    constructor
    · omega
    · intro e; omega

theorem window_expired_iff (m : crossmeter_t) (ts : timeval)
    (hl : usec_ok m.last_ts) (hu : usec_ok ts) (hs : stale m ts = false)
    (hd : ts.tv_sec - m.last_ts.tv_sec < (U32 : Int)) :
    window_expired m ts = true ↔ 1000000 ≤ micros ts - micros m.last_ts := by
  have hle := (stale_false_iff m ts).mp hs
  unfold ts_le at hle
  unfold usec_ok at hl hu
  unfold U32 at hd
  have hsd : (sec_diff m ts : Int) = ts.tv_sec - m.last_ts.tv_sec := by
    unfold sec_diff to_u32 U32
    omega
  have hud : (us_diff m ts : Int) =
      ((sec_diff m ts : Int) * 1000000 % 4294967296 + ts.tv_usec - m.last_ts.tv_usec)
        % 4294967296 := by
    unfold us_diff to_u32 U32
    push_cast
    omega
  unfold window_expired micros
  simp only [Bool.or_eq_true, decide_eq_true_eq]
  generalize sec_diff m ts = a at hsd hud
  generalize us_diff m ts = b at hud
  omega

theorem feed_window_expired (m : crossmeter_t) (inc_val : Nat) (ts : timeval)
    (he : window_expired m ts = true) (hu : usec_ok ts) (hi : inc_val < U32) :
    feed_window m inc_val ts =
      some { m with
        speed_slice := (List.replicate CM_TIME_SLOT 0).set (slot_of ts) inc_val
        real_speed := inc_val } := by
  have hc : slot_of ts < CM_TIME_SLOT := (slot_of_eq ts hu).2
  have hget : (List.replicate CM_TIME_SLOT 0)[slot_of ts]? = some 0 := by
    rw [List.getElem?_replicate]; simp [hc]
  unfold feed_window
  simp only [he, if_true, hget]
  have e1 : (0 + inc_val) % U32 = inc_val := by unfold U32 at *; omega
  have e2 : ((0 + inc_val) % U32 + (U32 - 0 % U32)) % U32 = inc_val := by unfold U32 at *; omega
  rw [e2, e1]

/-! ## Window conservation -/

theorem rotate_zero (slice : List Nat) (last_slot cur_slot : Nat)
    (hc : cur_slot < CM_TIME_SLOT) (hls : last_slot < CM_TIME_SLOT)
    (hz : ∀ j, j < CM_TIME_SLOT → visited last_slot cur_slot j → slice[j]? = some 0) :
    rotate slice last_slot cur_slot = some (slice, 0) := by
  unfold CM_TIME_SLOT at hc hls hz
  unfold rotate
  split_ifs with h1 h2
  · apply expire_range_zero
    intro j hj1 hj2
    exact hz j (by omega) (Or.inl ⟨h1, by omega, by omega⟩)
  · have e : (last_slot + 1) % U32 = last_slot + 1 := by unfold U32; omega
    rw [e]
    have first : expire_range (CM_TIME_SLOT - (last_slot + 1)) (last_slot + 1) slice 0 =
        some (slice, 0) := by
      apply expire_range_zero
      intro j hj1 hj2
      unfold CM_TIME_SLOT at hj2
      exact hz j (by omega) (Or.inr ⟨h2, Or.inl (by omega)⟩)
    simp only [first]
    apply expire_range_zero
    intro j _ hj2
    exact hz j (by omega) (Or.inr ⟨h2, Or.inr (by omega)⟩)
  · rfl

theorem feed_window_kept (m : crossmeter_t) (inc_val : Nat) (ts : timeval)
    (hlen : m.speed_slice.length = CM_TIME_SLOT)
    (hl : slot_of m.last_ts < CM_TIME_SLOT) (hu : usec_ok ts)
    (he : window_expired m ts = false) (hr : m.real_speed + inc_val < U32)
    (hz : ∀ j, j < CM_TIME_SLOT → visited (slot_of m.last_ts) (slot_of ts) j →
      m.speed_slice[j]? = some 0) :
    ∃ v, m.speed_slice[slot_of ts]? = some v ∧
      feed_window m inc_val ts =
        some { m with
          speed_slice := m.speed_slice.set (slot_of ts) ((v + inc_val) % U32)
          real_speed := m.real_speed + inc_val } := by
  have hc : slot_of ts < CM_TIME_SLOT := (slot_of_eq ts hu).2
  have hrot := rotate_zero m.speed_slice (slot_of m.last_ts) (slot_of ts) hc hl hz
  have hget : m.speed_slice[slot_of ts]? = some m.speed_slice[slot_of ts] :=
    List.getElem?_eq_getElem (by omega)
  refine ⟨_, hget, ?_⟩
  unfold feed_window
  simp only [he, Bool.false_eq_true, if_false, hrot, hget]
  have e : ((m.real_speed + inc_val) % U32 + (U32 - 0 % U32)) % U32 = m.real_speed + inc_val := by
    unfold U32 at *; omega
  rw [e]

theorem conserved_step (g0 : Int) (S : Nat) (m : crossmeter_t) (inc_val : Nat) (ts : timeval)
    (hc : conserved g0 S m) (hu : usec_ok ts) (hle : ts_le m.last_ts ts)
    (hg : gslot ts ≤ g0 + 9) (hS : S + inc_val < U32) :
    ∃ m', cm_speed_feed m inc_val ts = some (m', S + inc_val) ∧
      conserved g0 (S + inc_val) m' ∧ m'.last_ts = ts := by
  obtain ⟨hw, hlu, hg0, hg9, hreal, hz⟩ := hc
  have hs : stale m ts = false := (stale_false_iff m ts).mpr hle
  obtain ⟨hls, hls10⟩ := slot_of_eq m.last_ts hlu
  obtain ⟨hcs, hcs10⟩ := slot_of_eq ts hu
  have hlu' := hlu
  have hu' := hu
  unfold usec_ok at hlu' hu'
  unfold ts_le at hle
  unfold gslot at hg0 hg9 hg hz
  have he : window_expired m ts = false := by
    have hiff := window_expired_iff m ts hlu hu hs (by unfold U32; push_cast; omega)
    have : ¬ (1000000 ≤ micros ts - micros m.last_ts) := by unfold micros; omega
    cases h : window_expired m ts with
    | false => rfl
    | true => exact absurd (hiff.mp h) this
  obtain ⟨v, hget, hfw⟩ := feed_window_kept m inc_val ts hw.1 (by unfold CM_TIME_SLOT; omega) hu he
    (by rw [hreal]; exact hS) (by
      intro j hj hv
      apply hz j hj
      intro g h1 h2
      unfold visited at hv
      omega)
  obtain ⟨m2, e2, _, hp2, hs2, hr2⟩ :=
    peak_update_total
      { m with
        speed_slice := m.speed_slice.set (slot_of ts) ((v + inc_val) % U32)
        real_speed := m.real_speed + inc_val } (m.real_speed + inc_val) ts hw.2
  refine ⟨{ m2 with last_ts := ts }, ?_, ?_, rfl⟩
  · rw [cm_speed_feed_accept m inc_val ts hs]
    simp only [hfw, e2]
    rw [hr2, hreal]
  · refine ⟨⟨?_, ?_⟩, hu, ?_, ?_, ?_, ?_⟩
    · simp only [hs2]; simpa using hw.1
    · simp only [hp2]; exact hw.2
    · unfold gslot; simp only; omega
    · unfold gslot; simp only; omega
    · simp only [hr2, hreal]
    · intro j hj hno
      simp only [hs2]
      have hne : slot_of ts ≠ j := by
        intro e
        have := hno (ts.tv_sec * 10 + ts.tv_usec / 100000) (by omega) (by unfold gslot; simp only; omega)
        omega
      rw [List.getElem?_set]
      simp only [hne, if_false]
      apply hz j hj
      intro g h1 h2
      apply hno g h1
      unfold gslot
      simp only
      omega

theorem conserved_first (p : Option (peak_arr Nat)) (inc_val : Nat) (ts : timeval)
    (hp : periods_pos (cm_speed_init p).peak_period) (h0 : 0 ≤ ts.tv_sec) (hu : usec_ok ts)
    (hi : inc_val < U32) :
    ∃ m', cm_speed_feed (cm_speed_init p) inc_val ts = some (m', inc_val) ∧
      conserved (gslot ts) inc_val m' ∧ m'.last_ts = ts := by
  have hlen : (cm_speed_init p).speed_slice.length = CM_TIME_SLOT := by
    simp [cm_speed_init, cm_peakperiod_setall, zeroed]
  have hzero : ∀ j, j < CM_TIME_SLOT → (cm_speed_init p).speed_slice[j]? = some 0 := by
    intro j hj
    simp [cm_speed_init, cm_peakperiod_setall, zeroed, List.getElem?_replicate, hj]
  have hreal : (cm_speed_init p).real_speed = 0 := rfl
  have hlast : (cm_speed_init p).last_ts = ⟨0, 0⟩ := rfl
  have hu' := hu
  unfold usec_ok at hu'
  have hs : stale (cm_speed_init p) ts = false := by
    apply (stale_false_iff _ ts).mpr
    rw [hlast]; unfold ts_le; simp only; omega
  obtain ⟨hcs, hcs10⟩ := slot_of_eq ts hu
  have hfw : feed_window (cm_speed_init p) inc_val ts =
      some { cm_speed_init p with
        speed_slice := (cm_speed_init p).speed_slice.set (slot_of ts) inc_val
        real_speed := inc_val } := by
    cases he : window_expired (cm_speed_init p) ts with
    | true =>
      rw [feed_window_expired _ inc_val ts he hu hi]
      rfl
    | false =>
      obtain ⟨v, hget, hfw⟩ := feed_window_kept (cm_speed_init p) inc_val ts hlen
        (by rw [hlast]; decide) hu he (by rw [hreal]; omega) (fun j hj _ => hzero j hj)
      rw [hzero _ (by unfold CM_TIME_SLOT; omega)] at hget
      simp only [Option.some.injEq] at hget
      subst hget
      rw [hfw, hreal]
      simp only [Nat.zero_add, Nat.mod_eq_of_lt hi]
  obtain ⟨m2, e2, _, hp2, hs2, hr2⟩ :=
    peak_update_total
      { cm_speed_init p with
        speed_slice := (cm_speed_init p).speed_slice.set (slot_of ts) inc_val
        real_speed := inc_val } inc_val ts hp
  refine ⟨{ m2 with last_ts := ts }, ?_, ?_, rfl⟩
  · rw [cm_speed_feed_accept _ inc_val ts hs]
    simp only [hfw, e2]
    rw [hr2]
  · refine ⟨⟨?_, ?_⟩, hu, le_refl _, by show gslot ts ≤ gslot ts + 9; omega, hr2, ?_⟩
    · simp only [hs2]; simpa using hlen
    · simp only [hp2]; exact hp
    · intro j hj hno
      simp only [hs2]
      have hne : slot_of ts ≠ j := by
        intro e
        have := hno (gslot ts) (le_refl _) (le_refl _)
        unfold gslot at this
        omega
      rw [List.getElem?_set]
      simp only [hne, if_false]
      exact hzero j hj

theorem conserved_run (g0 : Int) (fs : List (Nat × timeval)) :
    ∀ (S : Nat) (m : crossmeter_t), conserved g0 S m →
      (∀ g ∈ fs, usec_ok g.2) → nondecreasing (m.last_ts :: fs.map Prod.snd) →
      (∀ g ∈ fs, gslot g.2 ≤ g0 + 9) → S + inc_sum fs < U32 →
      ∃ m', feed_all m S fs = some (m', S + inc_sum fs) ∧ conserved g0 (S + inc_sum fs) m' ∧
        m'.last_ts = last_ts_of m.last_ts fs := by
  induction fs with
  | nil =>
    intro S m hc _ _ _ _
    exact ⟨m, by simp [feed_all, inc_sum], by simpa [inc_sum] using hc, rfl⟩
  | cons f fs ih =>
    intro S m hc hu ho hg hS
    simp only [inc_sum, List.map_cons, List.sum_cons] at hS
    have ho' := ho
    unfold nondecreasing at ho'
    simp only [List.map_cons, List.pairwise_cons] at ho'
    obtain ⟨m1, e1, hc1, hl1⟩ := conserved_step g0 S m f.1 f.2 hc
      (hu f (List.mem_cons_self _ _)) (ho'.1 f.2 (List.mem_cons_self _ _))
      (hg f (List.mem_cons_self _ _)) (by omega)
    obtain ⟨m2, e2, hc2, hl2⟩ := ih (S + f.1) m1 hc1
      (fun g hg' => hu g (List.mem_cons_of_mem _ hg'))
      (by rw [hl1]; unfold nondecreasing; exact List.pairwise_cons.mpr ho'.2)
      (fun g hg' => hg g (List.mem_cons_of_mem _ hg'))
      (by unfold inc_sum; omega)
    have es : S + inc_sum (f :: fs) = S + f.1 + inc_sum fs := by
      simp only [inc_sum, List.map_cons, List.sum_cons]; omega
    refine ⟨m2, ?_, ?_, ?_⟩
    · simp only [feed_all, e1]; rw [es]; exact e2
    · rw [es]; exact hc2
    · rw [hl2, hl1]; rfl

/-! ## Claims on the rate window -/

/-- C3. Full-window expiry: for a well-formed meter and a non-stale timestamp
(both `tv_usec` in range, seconds difference below 2^32) the source's test
`(sec_diff > 1) || (us_diff >= 1000000)`, computed in wrapping 32-bit
arithmetic, holds exactly when the true elapsed time is at least 1,000,000 us;
in that case the feed returns `inc_val`, the current slot holds `inc_val` and
every other bucket is 0, and an accurate read (a feed of 0) returns 0. -/
theorem full_window_expiry (m : crossmeter_t) (inc_val : Nat) (ts : timeval)
    (hw : well_formed m) (hl : usec_ok m.last_ts) (hu : usec_ok ts)
    (hs : stale m ts = false) (hd : ts.tv_sec - m.last_ts.tv_sec < (U32 : Int))
    (hi : inc_val < U32) :
    (window_expired m ts = true ↔ 1000000 ≤ micros ts - micros m.last_ts) ∧
    (1000000 ≤ micros ts - micros m.last_ts →
      (∃ m', cm_speed_feed m inc_val ts = some (m', inc_val) ∧ m'.real_speed = inc_val ∧
        m'.speed_slice.length = CM_TIME_SLOT ∧
        ∀ j, j < CM_TIME_SLOT →
          m'.speed_slice[j]? = some (if j = slot_of ts then inc_val else 0)) ∧
      ∃ m', cm_realspeed_get_real m ts = some (m', 0)) := by
  have hiff := window_expired_iff m ts hl hu hs hd
  refine ⟨hiff, fun hge => ?_⟩
  have he := hiff.mpr hge
  have key : ∀ inc, inc < U32 → ∃ m', cm_speed_feed m inc ts = some (m', inc) ∧
      m'.real_speed = inc ∧
      m'.speed_slice = (List.replicate CM_TIME_SLOT 0).set (slot_of ts) inc := by
    intro inc hinc
    have e1 := feed_window_expired m inc ts he hu hinc
    obtain ⟨m2, e2, _, _, hs2, hr2⟩ :=
      peak_update_total
        { m with
          speed_slice := (List.replicate CM_TIME_SLOT 0).set (slot_of ts) inc
          real_speed := inc } inc ts hw.2
    refine ⟨{ m2 with last_ts := ts }, ?_, hr2, hs2⟩
    rw [cm_speed_feed_accept m inc ts hs]
    simp only [e1, e2]
    rw [hr2]
  constructor
  · obtain ⟨m', e, hr, hsl⟩ := key inc_val hi
    refine ⟨m', e, hr, by rw [hsl]; simp, ?_⟩
    intro j hj
    rw [hsl, List.getElem?_set, List.getElem?_replicate]
    have hc : slot_of ts < CM_TIME_SLOT := (slot_of_eq ts hu).2
    by_cases e : slot_of ts = j
    · subst e; simp [hc]
    · have e' : ¬ j = slot_of ts := fun h => e h.symm
      simp [e, e', hj]
  · obtain ⟨m', e, _, _⟩ := key 0 (by unfold U32; omega)
    exact ⟨m', e⟩

/-- Witness for C3: two feeds 1.5 s apart on a default meter. -/
theorem full_window_expiry_witness :
    (window_expired (cm_speed_init none) ⟨1, 500000⟩ = true ↔
      1000000 ≤ micros ⟨1, 500000⟩ - micros (cm_speed_init none).last_ts) ∧
    (1000000 ≤ micros ⟨1, 500000⟩ - micros (cm_speed_init none).last_ts →
      (∃ m', cm_speed_feed (cm_speed_init none) 7 ⟨1, 500000⟩ = some (m', 7) ∧
        m'.real_speed = 7 ∧ m'.speed_slice.length = CM_TIME_SLOT ∧
        ∀ j, j < CM_TIME_SLOT →
          m'.speed_slice[j]? = some (if j = slot_of ⟨1, 500000⟩ then 7 else 0)) ∧
      ∃ m', cm_realspeed_get_real (cm_speed_init none) ⟨1, 500000⟩ = some (m', 0)) :=
  full_window_expiry (cm_speed_init none) 7 ⟨1, 500000⟩ (by decide) (by decide) (by decide)
    (by decide) (by decide) (by decide)

/-- C4. Out-of-order rejection: a feed whose timestamp is strictly earlier than
`last_ts` (by seconds, then by microseconds) returns the stored `real_speed`
and leaves the whole meter unchanged. -/
theorem out_of_order_rejected (m : crossmeter_t) (inc_val : Nat) (ts : timeval)
    (h : ts.tv_sec < m.last_ts.tv_sec ∨
      (ts.tv_sec = m.last_ts.tv_sec ∧ ts.tv_usec < m.last_ts.tv_usec)) :
    cm_speed_feed m inc_val ts = some (m, m.real_speed) := by
  apply cm_speed_feed_stale
  unfold stale
  simp only [Bool.or_eq_true, Bool.and_eq_true, decide_eq_true_eq]
  exact h

/-- Witness for C4: a feed at T = 5.2 s, then a feed stamped one second earlier. -/
theorem out_of_order_rejected_witness :
    cm_speed_feed
      { last_ts := ⟨5, 200000⟩
        peak_ts := ⟨⟨5, 200000⟩, ⟨5, 200000⟩, ⟨5, 200000⟩⟩
        peak_speed := ⟨9, 9, 9⟩
        peak_period := period_default
        speed_slice := [0, 0, 9, 0, 0, 0, 0, 0, 0, 0]
        real_speed := 9 } 4 ⟨4, 200000⟩ =
      some ({ last_ts := ⟨5, 200000⟩
              peak_ts := ⟨⟨5, 200000⟩, ⟨5, 200000⟩, ⟨5, 200000⟩⟩
              peak_speed := ⟨9, 9, 9⟩
              peak_period := period_default
              speed_slice := [0, 0, 9, 0, 0, 0, 0, 0, 0, 0]
              real_speed := 9 }, 9) :=
  out_of_order_rejected _ 4 ⟨4, 200000⟩ (by decide)

theorem feed_all_invariant (fs : List (Nat × timeval)) :
    ∀ (m : crossmeter_t) (r : Nat), well_formed m → (∀ f ∈ fs, usec_ok f.2) →
      m.real_speed = m.speed_slice.sum % U32 →
      ∃ m' r', feed_all m r fs = some (m', r') ∧ well_formed m' ∧
        m'.peak_period = m.peak_period ∧ m'.real_speed = m'.speed_slice.sum % U32 := by
  induction fs with
  | nil => intro m r hw _ hinv; exact ⟨m, r, rfl, hw, rfl, hinv⟩
  | cons f fs ih =>
    intro m r hw hu hinv
    obtain ⟨m1, r1, e1, _, hw1, hp1, hinv1⟩ :=
      cm_speed_feed_total m f.1 f.2 hw (hu f (List.mem_cons_self _ _))
    obtain ⟨m2, r2, e2, hw2, hp2, hinv2⟩ :=
      ih m1 r1 hw1 (fun g hg => hu g (List.mem_cons_of_mem _ hg)) (hinv1 hinv)
    refine ⟨m2, r2, ?_, hw2, hp2.trans hp1, hinv2⟩
    simp only [feed_all, e1]
    exact e2

/-- C5. Total-equals-sum invariant: on a meter initialised with positive
periods, after any sequence of `cm_speed_feed` calls (none, accepted or
rejected, any increment, any timestamp with `tv_usec` in range) every call
returns and `real_speed` equals the sum of the ten buckets modulo 2^32. -/
theorem total_equals_sum (p : Option (peak_arr Nat)) (fs : List (Nat × timeval))
    (hp : periods_pos (cm_speed_init p).peak_period) (hu : ∀ f ∈ fs, usec_ok f.2) :
    ∃ m r, feed_all (cm_speed_init p) 0 fs = some (m, r) ∧
      m.speed_slice.length = CM_TIME_SLOT ∧ m.real_speed = m.speed_slice.sum % U32 := by
  have hw : well_formed (cm_speed_init p) := ⟨by simp [cm_speed_init, cm_peakperiod_setall, zeroed], hp⟩
  obtain ⟨m, r, e, hw', _, hinv⟩ :=
    feed_all_invariant fs (cm_speed_init p) 0 hw hu
      (by simp [cm_speed_init, cm_peakperiod_setall, zeroed])
  exact ⟨m, r, e, hw'.1, hinv⟩

/-- Witness for C5: an accepted, a wrapping and a rejected feed. -/
theorem total_equals_sum_witness :
    ∃ m r, feed_all (cm_speed_init none) 0
        [(4294967295, ⟨3, 100000⟩), (7, ⟨3, 950000⟩), (1, ⟨2, 0⟩)] = some (m, r) ∧
      m.speed_slice.length = CM_TIME_SLOT ∧ m.real_speed = m.speed_slice.sum % U32 :=
  total_equals_sum none [(4294967295, ⟨3, 100000⟩), (7, ⟨3, 950000⟩), (1, ⟨2, 0⟩)]
    (by decide) (by decide)

/-- C1 as stated fails. Feeds of 5, 1, 1 at 0.05 s, 0.15 s and 1.04 s are
non-decreasing and span 990 ms, yet the last feed and an accurate read at the
same instant return 2, not 7: the feed at 1.04 s re-enters slot 0 and clears
the 5 stored there. A first feed stamped before the zero timestamp of a fresh
meter is rejected and returns 0. -/
theorem window_conservation_counterexample :
    (∀ g ∈ lapped_feeds, usec_ok g.2) ∧
    nondecreasing (lapped_feeds.map Prod.snd) ∧
    micros ⟨1, 40000⟩ - micros ⟨0, 50000⟩ < 1000000 ∧
    inc_sum lapped_feeds = 7 ∧
    (feed_all (cm_speed_init none) 0 lapped_feeds).map Prod.snd = some 2 ∧
    ((feed_all (cm_speed_init none) 0 lapped_feeds).bind fun r =>
      (cm_realspeed_get_real r.1 ⟨1, 40000⟩).map Prod.snd) = some 2 ∧
    (feed_all (cm_speed_init none) 0 [(5, ⟨-1, 0⟩)]).map Prod.snd = some 0 := by
  decide

/-- C1 (amended). Window conservation: on a meter initialised with positive
periods, for a sequence of feeds with non-decreasing timestamps (`tv_usec` in
range, first `tv_sec` not negative) in which every timestamp is at most
900,000 us after the first and whose increments sum to less than 2^32, the
last feed returns the sum of all increments, and so does an accurate read (a
feed of 0) at the instant of the last feed. -/
theorem window_conservation (p : Option (peak_arr Nat)) (f : Nat × timeval)
    (fs : List (Nat × timeval))
    (hp : periods_pos (cm_speed_init p).peak_period)
    (h0 : 0 ≤ f.2.tv_sec)
    (hu : ∀ g ∈ f :: fs, usec_ok g.2)
    (ho : nondecreasing ((f :: fs).map Prod.snd))
    (hwin : ∀ g ∈ fs, micros g.2 - micros f.2 ≤ 900000)
    (hsum : inc_sum (f :: fs) < U32) :
    ∃ m, feed_all (cm_speed_init p) 0 (f :: fs) = some (m, inc_sum (f :: fs)) ∧
      m.last_ts = last_ts_of f.2 fs ∧
      ∃ m', cm_realspeed_get_real m (last_ts_of f.2 fs) = some (m', inc_sum (f :: fs)) := by
  have hs : f.1 + inc_sum fs < U32 := by
    simpa [inc_sum] using hsum
  have huf := hu f (List.mem_cons_self _ _)
  obtain ⟨m1, e1, hc1, hl1⟩ := conserved_first p f.1 f.2 hp h0 huf (by omega)
  obtain ⟨m2, e2, hc2, hl2⟩ := conserved_run (gslot f.2) fs f.1 m1 hc1
    (fun g hg => hu g (List.mem_cons_of_mem _ hg))
    (by rw [hl1]; exact ho)
    (by
      intro g hg
      have h1 := hwin g hg
      have h2 := hu g (List.mem_cons_of_mem _ hg)
      unfold usec_ok at h2 huf
      unfold micros at h1
      unfold gslot
      omega)
    hs
  have es : inc_sum (f :: fs) = f.1 + inc_sum fs := by simp [inc_sum]
  rw [hl1] at hl2
  refine ⟨m2, ?_, hl2, ?_⟩
  · simp only [feed_all, e1]; rw [es]; exact e2
  · obtain ⟨_, hlu, _, hg9, _, _⟩ := id hc2
    obtain ⟨m3, e3, _, _⟩ := conserved_step (gslot f.2) (f.1 + inc_sum fs) m2 0 m2.last_ts hc2
      hlu (by unfold ts_le; omega) hg9 (by omega)
    refine ⟨m3, ?_⟩
    unfold cm_realspeed_get_real
    rw [← hl2, es, e3]
    rfl

/-- Witness for C1 (amended): feeds of 5, 1, 1 at 0.05 s, 0.15 s and 0.95 s. -/
theorem window_conservation_witness :
    ∃ m, feed_all (cm_speed_init none) 0
        ((5, ⟨0, 50000⟩) :: [(1, ⟨0, 150000⟩), (1, ⟨0, 950000⟩)]) =
          some (m, inc_sum ((5, ⟨0, 50000⟩) :: [(1, ⟨0, 150000⟩), (1, ⟨0, 950000⟩)])) ∧
      m.last_ts = last_ts_of ⟨0, 50000⟩ [(1, ⟨0, 150000⟩), (1, ⟨0, 950000⟩)] ∧
      ∃ m', cm_realspeed_get_real m
          (last_ts_of ⟨0, 50000⟩ [(1, ⟨0, 150000⟩), (1, ⟨0, 950000⟩)]) =
        some (m', inc_sum ((5, ⟨0, 50000⟩) :: [(1, ⟨0, 150000⟩), (1, ⟨0, 950000⟩)])) :=
  window_conservation none (5, ⟨0, 50000⟩) [(1, ⟨0, 150000⟩), (1, ⟨0, 950000⟩)]
    (by decide) (by decide) (by decide) (by decide) (by decide) (by decide)

/-- C2 fails on the code. Feeds of 5, 0, 0 at 0.05 s, 0.95 s and 1.90 s have
non-decreasing timestamps; the feed at T = 1.90 s returns 5 although no
increment was fed in `(T - 1 s, T]`: the 5 fed 1.85 s earlier is still
counted, because a feed that finds `cur_slot == last_slot` clears nothing even
when the second has changed. -/
theorem stale_increment_counted :
    (∀ g ∈ same_slot_feeds, usec_ok g.2) ∧
    nondecreasing (same_slot_feeds.map Prod.snd) ∧
    (feed_all (cm_speed_init none) 0 same_slot_feeds).map Prod.snd = some 5 ∧
    recent_sum ⟨1, 900000⟩ same_slot_feeds = 0 := by
  decide

/-! ## Claims on the peak tracker -/

theorem epoch_advanced_iff (ts stored : timeval) (period : Nat) :
    epoch_advanced ts stored period = true ↔ epoch stored period < epoch ts period := by
  simp [epoch_advanced, epoch]

theorem peak_cascade_fields (m : crossmeter_t) (s : Nat) (t : timeval) :
    (peak_cascade m s t).peak_speed.short =
        (if m.peak_speed.short < s then s else m.peak_speed.short) ∧
    (peak_cascade m s t).peak_ts.short =
        (if m.peak_speed.short < s then t else m.peak_ts.short) ∧
    (peak_cascade m s t).peak_speed.medium =
        (if m.peak_speed.short < s ∧ m.peak_speed.medium < s then s else m.peak_speed.medium) ∧
    (peak_cascade m s t).peak_ts.medium =
        (if m.peak_speed.short < s ∧ m.peak_speed.medium < s then t else m.peak_ts.medium) ∧
    (peak_cascade m s t).peak_speed.long =
        (if m.peak_speed.short < s ∧ m.peak_speed.medium < s ∧ m.peak_speed.long < s then s
          else m.peak_speed.long) ∧
    (peak_cascade m s t).peak_ts.long =
        (if m.peak_speed.short < s ∧ m.peak_speed.medium < s ∧ m.peak_speed.long < s then t
          else m.peak_ts.long) := by
  unfold peak_cascade
  dsimp only
  by_cases h1 : m.peak_speed.short < s
  · by_cases h2 : m.peak_speed.medium < s
    · by_cases h3 : m.peak_speed.long < s
      · simp [h1, h2, h3]
      · simp [h1, h2, h3]
    · simp [h1, h2]
  · simp [h1]

theorem peak_rollover_fields (m : crossmeter_t) (s : Nat) (t : timeval)
    (hp : periods_pos m.peak_period) :
    ∃ m1, peak_rollover m s t = some m1 ∧
      m1.peak_speed.short =
        (if epoch m.peak_ts.short m.peak_period.short < epoch t m.peak_period.short then 0
          else m.peak_speed.short) ∧
      m1.peak_ts.short = m.peak_ts.short ∧
      m1.peak_speed.medium =
        (if epoch m.peak_ts.short m.peak_period.short < epoch t m.peak_period.short ∧
            epoch m.peak_ts.medium m.peak_period.medium < epoch t m.peak_period.medium then s
          else m.peak_speed.medium) ∧
      m1.peak_ts.medium =
        (if epoch m.peak_ts.short m.peak_period.short < epoch t m.peak_period.short ∧
            epoch m.peak_ts.medium m.peak_period.medium < epoch t m.peak_period.medium then t
          else m.peak_ts.medium) ∧
      m1.peak_speed.long =
        (if epoch m.peak_ts.short m.peak_period.short < epoch t m.peak_period.short ∧
            epoch m.peak_ts.medium m.peak_period.medium < epoch t m.peak_period.medium ∧
            epoch m.peak_ts.long m.peak_period.long < epoch t m.peak_period.long then s
          else m.peak_speed.long) ∧
      m1.peak_ts.long =
        (if epoch m.peak_ts.short m.peak_period.short < epoch t m.peak_period.short ∧
            epoch m.peak_ts.medium m.peak_period.medium < epoch t m.peak_period.medium ∧
            epoch m.peak_ts.long m.peak_period.long < epoch t m.peak_period.long then t
          else m.peak_ts.long) := by
  obtain ⟨h1, h2, h3⟩ := hp
  have n1 := Nat.pos_iff_ne_zero.mp h1
  have n2 := Nat.pos_iff_ne_zero.mp h2
  have n3 := Nat.pos_iff_ne_zero.mp h3
  unfold peak_rollover
  dsimp only
  simp only [n1, n2, n3, if_false, epoch_advanced_iff]
  by_cases a1 : epoch m.peak_ts.short m.peak_period.short < epoch t m.peak_period.short
  · by_cases a2 : epoch m.peak_ts.medium m.peak_period.medium < epoch t m.peak_period.medium
    · by_cases a3 : epoch m.peak_ts.long m.peak_period.long < epoch t m.peak_period.long
      · simp [a1, a2, a3]
      · simp [a1, a2, a3]
    · simp [a1, a2]
  · simp [a1]

/-- The result of `cm_peakspeed_update`, field by field: the roll-over checks
produce `m1`, the cascade produces the result from `m1`. -/
theorem peak_update_fields (m : crossmeter_t) (s : Nat) (t : timeval)
    (hp : periods_pos m.peak_period) :
    ∃ m1 m', peak_rollover m s t = some m1 ∧ cm_peakspeed_update m s t = some m' ∧
      m' = peak_cascade m1 s t ∧ m'.peak_period = m.peak_period := by
  obtain ⟨m1, h1, _⟩ := peak_rollover_fields m s t hp
  have e : cm_peakspeed_update m s t = some (peak_cascade m1 s t) := by
    unfold cm_peakspeed_update; rw [h1]
  exact ⟨m1, _, h1, e, rfl, (peak_update_frame m _ s t e).2.1⟩

/-! ### Epoch arithmetic -/

theorem epoch_of_nonneg (ts : timeval) (P : Nat) (h : 0 ≤ ts.tv_sec) :
    epoch ts P = ((ts.tv_sec.toNat / P : Nat) : Int) := by
  obtain ⟨n, hn⟩ := Int.eq_ofNat_of_zero_le h
  unfold epoch
  rw [hn, Int.toNat_ofNat]
  exact (Int.ofNat_tdiv n P).symm

theorem epoch_nonneg (ts : timeval) (P : Nat) (h : 0 ≤ ts.tv_sec) : 0 ≤ epoch ts P := by
  rw [epoch_of_nonneg ts P h]
  exact Int.ofNat_nonneg _

theorem epoch_nonpos (ts : timeval) (P : Nat) (h : ts.tv_sec ≤ 0) : epoch ts P ≤ 0 := by
  have h1 : 0 ≤ (-ts.tv_sec).tdiv (P : Int) :=
    Int.tdiv_nonneg (by omega) (Int.ofNat_nonneg _)
  rw [Int.neg_tdiv] at h1
  unfold epoch
  omega

theorem epoch_mono_nonneg (a b : timeval) (P : Nat) (hb : 0 ≤ b.tv_sec)
    (h : a.tv_sec ≤ b.tv_sec) : epoch a P ≤ epoch b P := by
  by_cases ha : 0 ≤ a.tv_sec
  · rw [epoch_of_nonneg a P ha, epoch_of_nonneg b P hb]
    exact Int.ofNat_le.mpr (Nat.div_le_div_right (by omega))
  · have h1 := epoch_nonpos a P (by omega)
    have h2 := epoch_nonneg b P hb
    omega

theorem epoch_coarsen (a b : timeval) (P Q : Nat) (hd : P ∣ Q)
    (ha : 0 ≤ a.tv_sec) (hb : 0 ≤ b.tv_sec) (h : epoch a P ≤ epoch b P) :
    epoch a Q ≤ epoch b Q := by
  obtain ⟨k, rfl⟩ := hd
  rw [epoch_of_nonneg a P ha, epoch_of_nonneg b P hb] at h
  rw [epoch_of_nonneg a _ ha, epoch_of_nonneg b _ hb]
  have h' : a.tv_sec.toNat / P ≤ b.tv_sec.toNat / P := Int.ofNat_le.mp h
  rw [← Nat.div_div_eq_div_mul, ← Nat.div_div_eq_div_mul]
  exact Int.ofNat_le.mpr (Nat.div_le_div_right h')

theorem epoch_next (t t2 : timeval) (P : Nat) (h0 : 0 ≤ t.tv_sec) (hP : 0 < P)
    (h2 : t2.tv_sec = t.tv_sec + P + 1) : epoch t P < epoch t2 P := by
  rw [epoch_of_nonneg t P h0, epoch_of_nonneg t2 P (by omega)]
  have e : t2.tv_sec.toNat = t.tv_sec.toNat + 1 + P := by omega
  rw [e, Nat.add_div_right _ hP]
  have : t.tv_sec.toNat / P ≤ (t.tv_sec.toNat + 1) / P := Nat.div_le_div_right (by omega)
  omega

/-! ### Invariants of the peak tracker -/

theorem peak_inv_congr (c : Int) (m1 m : crossmeter_t) (h : same_peaks m1 m) :
    peak_inv c m1 ↔ peak_inv c m := by
  obtain ⟨a, b, _⟩ := h
  unfold peak_inv
  rw [a, b]

theorem nest_peaks_congr (m1 m : crossmeter_t) (h : same_peaks m1 m) :
    nest_peaks m1 ↔ nest_peaks m := by
  obtain ⟨a, _, b⟩ := h
  unfold nest_peaks
  rw [a, b]

theorem peak_inv_update (c : Int) (m m' : crossmeter_t) (s : Nat) (t : timeval)
    (hp : periods_pos m.peak_period) (ht : t.tv_sec ≤ c) (hinv : peak_inv c m)
    (hu : cm_peakspeed_update m s t = some m') : peak_inv c m' := by
  obtain ⟨m1, e1, r1, r2, r3, r4, r5, r6⟩ := peak_rollover_fields m s t hp
  obtain ⟨c1, c2, c3, c4, c5, c6⟩ := peak_cascade_fields m1 s t
  have e : cm_peakspeed_update m s t = some (peak_cascade m1 s t) := by
    unfold cm_peakspeed_update; rw [e1]
  rw [e] at hu
  injection hu with hu
  subst hu
  obtain ⟨i1, i2, i3, i4⟩ := hinv
  unfold peak_inv
  simp only [c1, c2, c3, c4, c6, r1, r2, r3, r4, r5, r6]
  refine ⟨?_, ?_, ?_, ?_⟩ <;> split_ifs <;> omega

theorem nest_peaks_update (m m' : crossmeter_t) (s : Nat) (t : timeval)
    (hp : periods_pos m.peak_period) (hn : periods_nested m.peak_period)
    (ht : 0 ≤ t.tv_sec) (hinv : nest_peaks m)
    (hu : cm_peakspeed_update m s t = some m') : nest_peaks m' := by
  obtain ⟨m1, e1, r1, r2, r3, r4, r5, r6⟩ := peak_rollover_fields m s t hp
  obtain ⟨c1, c2, c3, c4, c5, c6⟩ := peak_cascade_fields m1 s t
  have e : cm_peakspeed_update m s t = some (peak_cascade m1 s t) := by
    unfold cm_peakspeed_update; rw [e1]
  rw [e] at hu
  injection hu with hu
  subst hu
  have hper := (peak_update_frame m _ s t e).2.1
  obtain ⟨n1, n2, n3, E1, E2⟩ := hinv
  have F2 := epoch_coarsen t m.peak_ts.short _ _ hn.1 ht n1
  have F1 := epoch_coarsen t m.peak_ts.medium _ _ hn.2 ht n2
  unfold nest_peaks
  simp only [hper, c2, c4, c6, r1, r2, r3, r4, r5, r6]
  refine ⟨?_, ?_, ?_, ?_, ?_⟩ <;> split_ifs <;> omega

/-! ### Operations seen from the peak tracker -/

theorem feed_window_frame (m m1 : crossmeter_t) (inc_val : Nat) (ts : timeval)
    (h : feed_window m inc_val ts = some m1) : same_peaks m1 m ∧ m1.last_ts = m.last_ts := by
  unfold feed_window at h
  dsimp only at h
  split at h
  · simp at h
  · split at h
    · simp at h
    · simp only [Option.some.injEq] at h
      subst h
      exact ⟨⟨rfl, rfl, rfl⟩, rfl⟩

/-- A feed either is rejected and changes nothing, or is accepted and runs one
peak update at its timestamp on a meter with the same peak state. -/
theorem cm_speed_feed_cases (m m' : crossmeter_t) (inc_val r : Nat) (ts : timeval)
    (h : cm_speed_feed m inc_val ts = some (m', r)) :
    (stale m ts = true ∧ m' = m) ∨
    (stale m ts = false ∧ ∃ m1 m2, same_peaks m1 m ∧
      cm_peakspeed_update m1 m1.real_speed ts = some m2 ∧ same_peaks m' m2 ∧
      m'.last_ts = ts ∧ r = m2.real_speed) := by
  cases hs : stale m ts with
  | true =>
    rw [cm_speed_feed_stale m inc_val ts hs] at h
    simp only [Option.some.injEq, Prod.mk.injEq] at h
    exact Or.inl ⟨rfl, h.1.symm⟩
  | false =>
    rw [cm_speed_feed_accept m inc_val ts hs] at h
    right
    refine ⟨rfl, ?_⟩
    cases hw : feed_window m inc_val ts with
    | none => simp [hw] at h
    | some m1 =>
      simp only [hw] at h
      cases hu : cm_peakspeed_update m1 m1.real_speed ts with
      | none => simp [hu] at h
      | some m2 =>
        simp only [hu, Option.some.injEq, Prod.mk.injEq] at h
        obtain ⟨h1, h2⟩ := h
        subst h1
        exact ⟨m1, m2, (feed_window_frame m m1 inc_val ts hw).1, hu, ⟨rfl, rfl, rfl⟩, rfl,
          h2.symm⟩

theorem apply_op_peak_inv (c : Int) (m m' : crossmeter_t) (op : meter_op)
    (hp : periods_pos m.peak_period) (ht : op.ts.tv_sec ≤ c) (hinv : peak_inv c m)
    (h : apply_op m op = some m') : peak_inv c m' ∧ m'.peak_period = m.peak_period := by
  cases op with
  | feed inc_val ts =>
    simp only [apply_op, Option.map_eq_some', Prod.exists, exists_and_right, exists_eq_right] at h
    obtain ⟨r, hr⟩ := h
    rcases cm_speed_feed_cases m m' inc_val r ts hr with ⟨_, e⟩ | ⟨_, m1, m2, s1, hu, s2, _, _⟩
    · subst e; exact ⟨hinv, rfl⟩
    · have hp1 : periods_pos m1.peak_period := by rw [s1.2.2]; exact hp
      have i1 := (peak_inv_congr c m1 m s1).mpr hinv
      have i2 := peak_inv_update c m1 m2 _ ts hp1 ht i1 hu
      refine ⟨(peak_inv_congr c m' m2 s2).mpr i2, ?_⟩
      rw [s2.2.2, (peak_update_frame m1 m2 _ ts hu).2.1, s1.2.2]
  | peaks now =>
    simp only [apply_op, cm_peakspeed_getall] at h
    cases hu : cm_peakspeed_update m 0 now with
    | none => simp [hu] at h
    | some m2 =>
      simp only [hu, Option.map_some', Option.some.injEq] at h
      subst h
      exact ⟨peak_inv_update c m m2 0 now hp ht hinv hu, (peak_update_frame m m2 0 now hu).2.1⟩

theorem run_ops_peak_inv (c : Int) (ops : List meter_op) :
    ∀ (m m' : crossmeter_t), periods_pos m.peak_period → (∀ op ∈ ops, op.ts.tv_sec ≤ c) →
      peak_inv c m → run_ops m ops = some m' →
      peak_inv c m' ∧ m'.peak_period = m.peak_period := by
  induction ops with
  | nil =>
    intro m m' _ _ hinv h
    simp only [run_ops, Option.some.injEq] at h
    subst h
    exact ⟨hinv, rfl⟩
  | cons op ops ih =>
    intro m m' hp ht hinv h
    cases ha : apply_op m op with
    | none => simp [run_ops, ha] at h
    | some m1 =>
      simp only [run_ops, ha] at h
      obtain ⟨i1, p1⟩ := apply_op_peak_inv c m m1 op hp (ht op (List.mem_cons_self _ _)) hinv ha
      obtain ⟨i2, p2⟩ := ih m1 m' (by rw [p1]; exact hp)
        (fun o ho => ht o (List.mem_cons_of_mem _ ho)) i1 h
      exact ⟨i2, p2.trans p1⟩

theorem feed_all_nest (fs : List (Nat × timeval)) :
    ∀ (m m' : crossmeter_t) (r r' : Nat), periods_pos m.peak_period →
      periods_nested m.peak_period → 0 ≤ m.last_ts.tv_sec → nest_peaks m →
      feed_all m r fs = some (m', r') →
      nest_peaks m' ∧ m'.peak_period = m.peak_period := by
  induction fs with
  | nil =>
    intro m m' r r' _ _ _ hinv h
    simp only [feed_all, Option.some.injEq, Prod.mk.injEq] at h
    obtain ⟨h, _⟩ := h
    subst h
    exact ⟨hinv, rfl⟩
  | cons f fs ih =>
    intro m m' r r' hp hn hl hinv h
    cases hf : cm_speed_feed m f.1 f.2 with
    | none => simp [feed_all, hf] at h
    | some x =>
      obtain ⟨ma, ra⟩ := x
      simp only [feed_all, hf] at h
      rcases cm_speed_feed_cases m ma f.1 ra f.2 hf with
        ⟨_, e⟩ | ⟨hs, m1, m2, s1, hu, s2, hlast, _⟩
      · subst e
        exact ih ma m' ra r' hp hn hl hinv h
      · have hle := (stale_false_iff m f.2).mp hs
        have ht : 0 ≤ f.2.tv_sec := by unfold ts_le at hle; omega
        have hp1 : periods_pos m1.peak_period := by rw [s1.2.2]; exact hp
        have hn1 : periods_nested m1.peak_period := by rw [s1.2.2]; exact hn
        have i1 := (nest_peaks_congr m1 m s1).mpr hinv
        have i2 := nest_peaks_update m1 m2 _ f.2 hp1 hn1 ht i1 hu
        have i3 := (nest_peaks_congr ma m2 s2).mpr i2
        have pe : ma.peak_period = m.peak_period := by
          rw [s2.2.2, (peak_update_frame m1 m2 _ f.2 hu).2.1, s1.2.2]
        obtain ⟨i4, p4⟩ := ih ma m' ra r' (by rw [pe]; exact hp) (by rw [pe]; exact hn)
          (by rw [hlast]; exact ht) i3 h
        exact ⟨i4, p4.trans pe⟩

/-- C10. Tie-break: for a meter with positive periods, a peak update whose
timestamp does not advance horizon `h`'s epoch and whose rate does not exceed
`peak_speed[h]` returns and leaves `peak_speed[h]` and `peak_ts[h]` unchanged. -/
theorem tie_break (m : crossmeter_t) (rate : Nat) (ts : timeval) (h : cm_period_e)
    (hp : periods_pos m.peak_period)
    (he : epoch ts (m.peak_period.get h) ≤ epoch (m.peak_ts.get h) (m.peak_period.get h))
    (hr : rate ≤ m.peak_speed.get h) :
    ∃ m', cm_peakspeed_update m rate ts = some m' ∧
      m'.peak_speed.get h = m.peak_speed.get h ∧ m'.peak_ts.get h = m.peak_ts.get h := by
  obtain ⟨m1, e1, r1, r2, r3, r4, r5, r6⟩ := peak_rollover_fields m rate ts hp
  obtain ⟨c1, c2, c3, c4, c5, c6⟩ := peak_cascade_fields m1 rate ts
  have e : cm_peakspeed_update m rate ts = some (peak_cascade m1 rate ts) := by
    unfold cm_peakspeed_update; rw [e1]
  refine ⟨_, e, ?_⟩
  cases h <;> simp only [peak_arr.get] at he hr ⊢
  · rw [c1, c2, r1, r2]
    constructor <;> split_ifs <;> first | rfl | omega
  · rw [c3, c4, r1, r3, r4]
    constructor <;> split_ifs <;> first | rfl | omega
  · rw [c5, c6, r1, r3, r5, r6]
    constructor <;> split_ifs <;> first | rfl | omega

/-- Witness for C10: a sample equal to the current peak, later in the same
epochs, replaces no timestamp. -/
theorem tie_break_witness :
    ∃ m', cm_peakspeed_update
        { last_ts := ⟨5, 0⟩
          peak_ts := ⟨⟨5, 0⟩, ⟨5, 0⟩, ⟨5, 0⟩⟩
          peak_speed := ⟨9, 9, 9⟩
          peak_period := period_default
          speed_slice := [9, 0, 0, 0, 0, 0, 0, 0, 0, 0]
          real_speed := 9 } 9 ⟨7, 0⟩ = some m' ∧
      m'.peak_speed.get .CM_PEAK_LONG = (9 : Nat) ∧
      m'.peak_ts.get .CM_PEAK_LONG = (⟨5, 0⟩ : timeval) :=
  tie_break
    { last_ts := ⟨5, 0⟩
      peak_ts := ⟨⟨5, 0⟩, ⟨5, 0⟩, ⟨5, 0⟩⟩
      peak_speed := ⟨9, 9, 9⟩
      peak_period := period_default
      speed_slice := [9, 0, 0, 0, 0, 0, 0, 0, 0, 0]
      real_speed := 9 } 9 ⟨7, 0⟩ .CM_PEAK_LONG (by decide) (by decide) (by decide)

theorem init_peak_state (p : Option (peak_arr Nat)) :
    (cm_speed_init p).peak_ts = ⟨⟨0, 0⟩, ⟨0, 0⟩, ⟨0, 0⟩⟩ ∧
      (cm_speed_init p).peak_speed = ⟨0, 0, 0⟩ ∧ (cm_speed_init p).last_ts = ⟨0, 0⟩ :=
  ⟨rfl, rfl, rfl⟩

/-- C8. Epoch reset: let `m` be reached from `cm_speed_init` with positive
periods by feeds and peak queries with non-decreasing timestamps. A peak update
with rate `H` at second `t >= 0` (not earlier than the operations before it)
followed by a peak update with rate `r < H` at second `t + P + 1`, `P` the SHORT
period, leaves `peak_speed[SHORT] = r`; and when `t + P + 1` lies in the LONG
epoch of LONG's stored peak timestamp, LONG's peak value and timestamp are
those left by the first update. -/
theorem epoch_reset (p : Option (peak_arr Nat)) (ops : List meter_op) (m : crossmeter_t)
    (H r : Nat) (t1 t2 : timeval)
    (hp : periods_pos (cm_speed_init p).peak_period)
    (hrun : run_ops (cm_speed_init p) ops = some m)
    (hord : nondecreasing (ops.map meter_op.ts ++ [t1]))
    (h0 : 0 ≤ t1.tv_sec)
    (h2 : t2.tv_sec = t1.tv_sec + (cm_speed_init p).peak_period.short + 1)
    (hr : r < H) :
    ∃ m1 m2, cm_peakspeed_update m H t1 = some m1 ∧ cm_peakspeed_update m1 r t2 = some m2 ∧
      m2.peak_speed.short = r ∧
      (epoch t2 m1.peak_period.long = epoch m1.peak_ts.long m1.peak_period.long →
        m2.peak_speed.long = m1.peak_speed.long ∧ m2.peak_ts.long = m1.peak_ts.long) := by
  obtain ⟨its, isp, _⟩ := init_peak_state p
  have hall : ∀ op ∈ ops, op.ts.tv_sec ≤ t1.tv_sec := by
    intro op hop
    have h := (List.pairwise_append.mp hord).2.2 op.ts (List.mem_map_of_mem _ hop) t1
      (List.mem_singleton_self _)
    unfold ts_le at h
    omega
  have hinit : peak_inv t1.tv_sec (cm_speed_init p) := by
    unfold peak_inv
    rw [its, isp]
    exact ⟨le_refl _, h0, h0, h0⟩
  obtain ⟨hinv, hper⟩ := run_ops_peak_inv t1.tv_sec ops _ m hp hall hinit hrun
  have hpm : periods_pos m.peak_period := by rw [hper]; exact hp
  obtain ⟨ma, ea, a1, a2, a3, a4, a5, a6⟩ := peak_rollover_fields m H t1 hpm
  obtain ⟨c1, c2, c3, c4, c5, c6⟩ := peak_cascade_fields ma H t1
  have e1 : cm_peakspeed_update m H t1 = some (peak_cascade ma H t1) := by
    unfold cm_peakspeed_update; rw [ea]
  have hper1 := (peak_update_frame m _ H t1 e1).2.1
  obtain ⟨i1, i2, _, _⟩ := peak_inv_update t1.tv_sec m _ H t1 hpm (le_refl _) hinv e1
  have hH : H ≤ (peak_cascade ma H t1).peak_speed.short := by
    rw [c1]; split_ifs <;> omega
  have hpm1 : periods_pos (peak_cascade ma H t1).peak_period := by rw [hper1]; exact hpm
  obtain ⟨mb, eb, b1, b2, b3, b4, b5, b6⟩ := peak_rollover_fields (peak_cascade ma H t1) r t2 hpm1
  obtain ⟨d1, d2, d3, d4, d5, d6⟩ := peak_cascade_fields mb r t2
  have e2 : cm_peakspeed_update (peak_cascade ma H t1) r t2 = some (peak_cascade mb r t2) := by
    unfold cm_peakspeed_update; rw [eb]
  have hadv : epoch (peak_cascade ma H t1).peak_ts.short (peak_cascade ma H t1).peak_period.short
      < epoch t2 (peak_cascade ma H t1).peak_period.short := by
    have hm := epoch_mono_nonneg (peak_cascade ma H t1).peak_ts.short t1
      (peak_cascade ma H t1).peak_period.short h0 i2
    have hn := epoch_next t1 t2 (peak_cascade ma H t1).peak_period.short h0 hpm1.1
      (by rw [hper1, hper]; exact h2)
    omega
  refine ⟨_, _, e1, e2, ?_, ?_⟩
  · rw [d1, b1]
    simp only [hadv, if_true]
    split_ifs <;> omega
  · intro hsame
    rw [d5, d6, b1, b3, b5, b6]
    constructor <;> split_ifs <;> first | rfl | omega

/-- Witness for C8: periods {2, 8, 32}; rate 5 at t = 0, then rate 1 at t = 3.
The same scenario through `cm_speed_feed` ends with peaks 1, 5, 5. -/
theorem epoch_reset_witness :
    (∃ m1 m2, cm_peakspeed_update (cm_speed_init (some ⟨2, 8, 32⟩)) 5 ⟨0, 0⟩ = some m1 ∧
      cm_peakspeed_update m1 1 ⟨3, 0⟩ = some m2 ∧ m2.peak_speed.short = 1 ∧
      (epoch ⟨3, 0⟩ m1.peak_period.long = epoch m1.peak_ts.long m1.peak_period.long →
        m2.peak_speed.long = m1.peak_speed.long ∧ m2.peak_ts.long = m1.peak_ts.long)) ∧
    (feed_all (cm_speed_init (some ⟨2, 8, 32⟩)) 0 [(5, ⟨0, 0⟩), (1, ⟨3, 0⟩)]).map
      (fun x => x.1.peak_speed) = some ⟨1, 5, 5⟩ :=
  ⟨epoch_reset (some ⟨2, 8, 32⟩) [] (cm_speed_init (some ⟨2, 8, 32⟩)) 5 1 ⟨0, 0⟩ ⟨3, 0⟩
    (by decide) rfl (by decide) (by decide) (by decide) (by decide), by decide⟩

/-- C9 as stated fails. With periods {4, 6, 32} (MEDIUM not a multiple of
SHORT) a feed of 5 at t = 4 s is followed by a query at t = 6 s: MEDIUM's epoch
index has advanced from 0 to 1, SHORT's has not, so MEDIUM's boundary is not
examined and the query returns 5 for MEDIUM. -/
theorem lazy_expiry_counterexample :
    periods_pos (cm_speed_init (some ⟨4, 6, 32⟩)).peak_period ∧
    ((feed_all (cm_speed_init (some ⟨4, 6, 32⟩)) 0 [(5, ⟨4, 0⟩)]).map
      fun x => (x.1.peak_ts.get .CM_PEAK_MEDIUM, x.1.peak_period.get .CM_PEAK_MEDIUM)) =
        some (⟨4, 0⟩, 6) ∧
    epoch ⟨4, 0⟩ 6 < epoch ⟨6, 0⟩ 6 ∧
    ((feed_all (cm_speed_init (some ⟨4, 6, 32⟩)) 0 [(5, ⟨4, 0⟩)]).bind fun x =>
      (cm_peakspeed_get x.1 cm_period_e.CM_PEAK_MEDIUM.val ⟨6, 0⟩).map fun y => y.2.1) =
        some 5 := by
  decide

/-- C9 (amended). Lazy expiry on query: let `m` be reached from `cm_speed_init`
by any sequence of feeds, with positive periods of which MEDIUM is a multiple
of SHORT and LONG a multiple of MEDIUM. A peak query at a time `now` whose
`h`-epoch index is greater than that of the stored `peak_ts[h]` returns 0 for
horizon `h`, through `cm_peakspeed_get` and through `cm_peakspeed_getall`. -/
theorem lazy_expiry (p : Option (peak_arr Nat)) (fs : List (Nat × timeval))
    (m : crossmeter_t) (r : Nat) (now : timeval) (h : cm_period_e)
    (hp : periods_pos (cm_speed_init p).peak_period)
    (hn : periods_nested (cm_speed_init p).peak_period)
    (hrun : feed_all (cm_speed_init p) 0 fs = some (m, r))
    (he : epoch (m.peak_ts.get h) (m.peak_period.get h) < epoch now (m.peak_period.get h)) :
    (∃ m' ts, cm_peakspeed_get m h.val now = some (m', 0, some ts)) ∧
    (∃ m' ps pts, cm_peakspeed_getall m now = some (m', ps, pts) ∧ ps.get h = 0) := by
  obtain ⟨its, isp, ilast⟩ := init_peak_state p
  have hinit : nest_peaks (cm_speed_init p) := by
    unfold nest_peaks
    rw [its]
    simp [epoch]
  obtain ⟨hinv, hper⟩ := feed_all_nest fs _ m 0 r hp hn (by rw [ilast]) hinit hrun
  have hpm : periods_pos m.peak_period := by rw [hper]; exact hp
  have hnm : periods_nested m.peak_period := by rw [hper]; exact hn
  obtain ⟨n1, n2, n3, E1, E2⟩ := hinv
  obtain ⟨ma, ea, a1, a2, a3, a4, a5, a6⟩ := peak_rollover_fields m 0 now hpm
  obtain ⟨c1, c2, c3, c4, c5, c6⟩ := peak_cascade_fields ma 0 now
  have e1 : cm_peakspeed_update m 0 now = some (peak_cascade ma 0 now) := by
    unfold cm_peakspeed_update; rw [ea]
  have hnow : 0 ≤ now.tv_sec := by
    by_contra hneg
    have h1 := epoch_nonpos now (m.peak_period.get h) (by omega)
    have h2 : 0 ≤ epoch (m.peak_ts.get h) (m.peak_period.get h) := by
      cases h
      · exact epoch_nonneg _ _ n1
      · exact epoch_nonneg _ _ n2
      · exact epoch_nonneg _ _ n3
    omega
  have G2 := epoch_coarsen now m.peak_ts.short _ _ hnm.1 hnow n1
  have G1 := epoch_coarsen now m.peak_ts.medium _ _ hnm.2 hnow n2
  have key : (peak_cascade ma 0 now).peak_speed.get h = 0 := by
    cases h <;> simp only [peak_arr.get] at he ⊢
    · rw [c1, a1]; split_ifs <;> omega
    · rw [c3, a1, a3]; split_ifs <;> omega
    · rw [c5, a1, a3, a5]; split_ifs <;> omega
  constructor
  · unfold cm_peakspeed_get
    cases h
    · simp only [peak_arr.get] at key
      simp [cm_period_e.val, CM_PEAK_NUM, e1, peak_arr.idx, key]
    · simp only [peak_arr.get] at key
      simp [cm_period_e.val, CM_PEAK_NUM, e1, peak_arr.idx, key]
    · simp only [peak_arr.get] at key
      simp [cm_period_e.val, CM_PEAK_NUM, e1, peak_arr.idx, key]
  · exact ⟨_, _, _, by unfold cm_peakspeed_getall; rw [e1], key⟩

/-- Witness for C9 (amended): periods {2, 8, 32}, a feed of 5 at t = 1 s, a
query for MEDIUM at t = 9 s. -/
theorem lazy_expiry_witness :
    (∃ m' ts, cm_peakspeed_get
        { last_ts := ⟨1, 0⟩
          peak_ts := ⟨⟨1, 0⟩, ⟨1, 0⟩, ⟨1, 0⟩⟩
          peak_speed := ⟨5, 5, 5⟩
          peak_period := ⟨2, 8, 32⟩
          speed_slice := [5, 0, 0, 0, 0, 0, 0, 0, 0, 0]
          real_speed := 5 } cm_period_e.CM_PEAK_MEDIUM.val ⟨9, 0⟩ = some (m', 0, some ts)) ∧
    (∃ m' ps pts, cm_peakspeed_getall
        { last_ts := ⟨1, 0⟩
          peak_ts := ⟨⟨1, 0⟩, ⟨1, 0⟩, ⟨1, 0⟩⟩
          peak_speed := ⟨5, 5, 5⟩
          peak_period := ⟨2, 8, 32⟩
          speed_slice := [5, 0, 0, 0, 0, 0, 0, 0, 0, 0]
          real_speed := 5 } ⟨9, 0⟩ = some (m', ps, pts) ∧ ps.get .CM_PEAK_MEDIUM = 0) :=
  lazy_expiry (some ⟨2, 8, 32⟩) [(5, ⟨1, 0⟩)] _ 5 ⟨9, 0⟩ .CM_PEAK_MEDIUM
    (by decide) (by decide) (by decide) (by decide)

/-- C6 fails on the code. Periods {2, 8, 32} are positive and nested. Feeds of
3 at t = 0 s and 5 at t = 8 s return the rates 3 and 5, both in LONG epoch 0,
and leave `peak_speed[LONG] = 3`: the second feed starts a MEDIUM epoch, which
seeds MEDIUM with 5, so the cascade `speed > peak_speed[MEDIUM]` stops before
LONG is compared. -/
theorem long_peak_missed :
    periods_pos (cm_speed_init (some ⟨2, 8, 32⟩)).peak_period ∧
    periods_nested (cm_speed_init (some ⟨2, 8, 32⟩)).peak_period ∧
    (feed_all (cm_speed_init (some ⟨2, 8, 32⟩)) 0 [(3, ⟨0, 0⟩)]).map Prod.snd = some 3 ∧
    (feed_all (cm_speed_init (some ⟨2, 8, 32⟩)) 0 [(3, ⟨0, 0⟩), (5, ⟨8, 0⟩)]).map
      (fun x => (x.2, x.1.peak_speed)) = some (5, ⟨5, 5, 3⟩) ∧
    epoch ⟨0, 0⟩ 32 = epoch ⟨8, 0⟩ 32 := by
  decide

/-- C7 fails on the code. With periods {2, 8, 32}, the updates of a feed of 3
at t = 0 s and a feed of 5 at t = 8 s leave peaks 5, 5, 3 stamped 8 s, 8 s,
0 s: at `now` = 8 s every stored timestamp lies in its horizon's open epoch,
yet `peak_speed[MEDIUM] > peak_speed[LONG]`. -/
theorem cascade_order_broken :
    nondecreasing ([meter_op.feed 3 ⟨0, 0⟩, meter_op.feed 5 ⟨8, 0⟩].map meter_op.ts) ∧
    ∃ m, run_ops (cm_speed_init (some ⟨2, 8, 32⟩))
        [meter_op.feed 3 ⟨0, 0⟩, meter_op.feed 5 ⟨8, 0⟩] = some m ∧
      periods_pos m.peak_period ∧
      (∀ h, epoch ⟨8, 0⟩ (m.peak_period.get h) = epoch (m.peak_ts.get h) (m.peak_period.get h)) ∧
      m.peak_speed.medium = 5 ∧ m.peak_speed.long = 3 ∧
      ¬ (m.peak_speed.medium ≤ m.peak_speed.long) := by
  refine ⟨by decide, _, rfl, by decide, ?_, by decide, by decide, by decide⟩
  intro h
  cases h <;> decide

/-! ## Claims on configuration and readers -/

/-- C11 fails on the code. With no array the three defaults are installed, but
`cm_speed_init` and `cm_peakperiod_setall` copy a caller's array verbatim: the
array {0, 8, 32} leaves `peak_period[SHORT] = 0`, and the first accepted feed
then divides by zero. The single-horizon setter `cm_peakperiod_set` does
replace a 0 by the default. -/
theorem zero_period_kept :
    (cm_speed_init none).peak_period = ⟨3600, 86400, 2592000⟩ ∧
    (cm_speed_init (some ⟨0, 8, 32⟩)).peak_period = ⟨0, 8, 32⟩ ∧
    (cm_peakperiod_setall (cm_speed_init none) (some ⟨0, 8, 32⟩)).peak_period = ⟨0, 8, 32⟩ ∧
    ¬ periods_pos (cm_speed_init (some ⟨0, 8, 32⟩)).peak_period ∧
    cm_speed_feed (cm_speed_init (some ⟨0, 8, 32⟩)) 1 ⟨1, 0⟩ = none ∧
    (cm_peakperiod_set (cm_speed_init (some ⟨0, 8, 32⟩)) 0 0).peak_period = ⟨3600, 8, 32⟩ := by
  decide

theorem idx_val {α : Type} (a : peak_arr α) (h : cm_period_e) : a.idx h.val = some (a.get h) := by
  cases h <;> rfl

theorem val_lt (h : cm_period_e) : h.val < CM_PEAK_NUM := by
  cases h <;> decide

/-- C12. Period set/get round trip: after `cm_peakperiod_set(h, p)` the getter
returns, for horizon `h`, `p` when `p > 0` and the default of `h` when `p = 0`,
and for every other horizon what it returned before; peak values, peak
timestamps, `last_ts`, the buckets and `real_speed` are unchanged. -/
theorem period_set_get (m : crossmeter_t) (h : cm_period_e) (p : Nat) :
    (∀ h' : cm_period_e, cm_peakperiod_get (cm_peakperiod_set m h.val p) h'.val =
      if h' = h then (if p > 0 then p else period_default.get h)
      else cm_peakperiod_get m h'.val) ∧
    (cm_peakperiod_set m h.val p).peak_speed = m.peak_speed ∧
    (cm_peakperiod_set m h.val p).peak_ts = m.peak_ts ∧
    (cm_peakperiod_set m h.val p).last_ts = m.last_ts ∧
    (cm_peakperiod_set m h.val p).speed_slice = m.speed_slice ∧
    (cm_peakperiod_set m h.val p).real_speed = m.real_speed := by
  refine ⟨?_, ?_, ?_, ?_, ?_, ?_⟩
  · intro h'
    cases h <;> cases h' <;>
      simp [cm_peakperiod_get, cm_peakperiod_set, cm_period_e.val, CM_PEAK_NUM, peak_arr.idx,
        peak_arr.set, peak_arr.get, period_default]
  all_goals
    cases h <;>
      simp [cm_peakperiod_set, cm_period_e.val, CM_PEAK_NUM, peak_arr.idx, period_default]

/-- C13. Invalid horizon index: for a selector `k >= CM_PEAK_NUM`,
`cm_peakspeed_get` returns 0, leaves the meter unchanged and stores no
timestamp; `cm_peakperiod_get` returns 0; `cm_peakperiod_set` leaves the meter
unchanged. -/
theorem invalid_horizon_neutral (m : crossmeter_t) (k p : Nat) (now : timeval)
    (hk : CM_PEAK_NUM ≤ k) :
    cm_peakspeed_get m k now = some (m, 0, none) ∧ cm_peakperiod_get m k = 0 ∧
      cm_peakperiod_set m k p = m := by
  refine ⟨?_, ?_, ?_⟩
  · simp [cm_peakspeed_get, hk]
  · simp [cm_peakperiod_get, hk]
  · simp [cm_peakperiod_set, Nat.not_lt.mpr hk]

/-- Witness for C13: selector 7 on a meter that holds a rate and peaks. -/
theorem invalid_horizon_neutral_witness :
    cm_peakspeed_get
        { last_ts := ⟨5, 0⟩
          peak_ts := ⟨⟨5, 0⟩, ⟨5, 0⟩, ⟨5, 0⟩⟩
          peak_speed := ⟨9, 9, 9⟩
          peak_period := period_default
          speed_slice := [9, 0, 0, 0, 0, 0, 0, 0, 0, 0]
          real_speed := 9 } 7 ⟨4000, 0⟩ =
      some ({ last_ts := ⟨5, 0⟩
              peak_ts := ⟨⟨5, 0⟩, ⟨5, 0⟩, ⟨5, 0⟩⟩
              peak_speed := ⟨9, 9, 9⟩
              peak_period := period_default
              speed_slice := [9, 0, 0, 0, 0, 0, 0, 0, 0, 0]
              real_speed := 9 }, 0, none) ∧
    cm_peakperiod_get
        { last_ts := ⟨5, 0⟩
          peak_ts := ⟨⟨5, 0⟩, ⟨5, 0⟩, ⟨5, 0⟩⟩
          peak_speed := ⟨9, 9, 9⟩
          peak_period := period_default
          speed_slice := [9, 0, 0, 0, 0, 0, 0, 0, 0, 0]
          real_speed := 9 } 7 = 0 ∧
    cm_peakperiod_set
        { last_ts := ⟨5, 0⟩
          peak_ts := ⟨⟨5, 0⟩, ⟨5, 0⟩, ⟨5, 0⟩⟩
          peak_speed := ⟨9, 9, 9⟩
          peak_period := period_default
          speed_slice := [9, 0, 0, 0, 0, 0, 0, 0, 0, 0]
          real_speed := 9 } 7 60 =
      { last_ts := ⟨5, 0⟩
        peak_ts := ⟨⟨5, 0⟩, ⟨5, 0⟩, ⟨5, 0⟩⟩
        peak_speed := ⟨9, 9, 9⟩
        peak_period := period_default
        speed_slice := [9, 0, 0, 0, 0, 0, 0, 0, 0, 0]
        real_speed := 9 } :=
  invalid_horizon_neutral _ 7 60 ⟨4000, 0⟩ (by decide)

/-- C14 as stated fails. After a feed of 5 at 0 s, a non-accurate read exactly
1,000,000 us later (an elapsed time that does not exceed one second) returns
0, not the stored 5: the test is `us_diff >= 1000000`. And a read 2^32 - 1
seconds later returns the stored 5, because `sec_diff` is a 32-bit `int`. -/
theorem stale_read_counterexample :
    (feed_all (cm_speed_init none) 0 [(5, ⟨0, 0⟩)]).map
      (fun x => (x.1.last_ts, x.1.real_speed)) = some (⟨0, 0⟩, 5) ∧
    ¬ (1000000 < micros ⟨1, 0⟩ - micros ⟨0, 0⟩) ∧
    ((feed_all (cm_speed_init none) 0 [(5, ⟨0, 0⟩)]).bind fun x =>
      (cm_realspeed_get x.1 0 ⟨1, 0⟩).map Prod.snd) = some 0 ∧
    1000000 < micros ⟨4294967295, 0⟩ - micros ⟨0, 0⟩ ∧
    ((feed_all (cm_speed_init none) 0 [(5, ⟨0, 0⟩)]).bind fun x =>
      (cm_realspeed_get x.1 0 ⟨4294967295, 0⟩).map Prod.snd) = some 5 := by
  decide

/-- C14 (amended). Non-accurate read value: for a clock reading `now` not
earlier than `last_ts` and less than 2^31 seconds after it (both `tv_usec` in
range), `cm_realspeed_get` with `bReal = 0` returns 0 when the elapsed time is
at least 1,000,000 us and the stored `real_speed` otherwise, and leaves the
meter unchanged. -/
theorem stale_read_value (m : crossmeter_t) (now : timeval)
    (hl : usec_ok m.last_ts) (hu : usec_ok now) (hle : ts_le m.last_ts now)
    (hd : now.tv_sec - m.last_ts.tv_sec < 2147483648) :
    cm_realspeed_get m 0 now =
      some (m, if 1000000 ≤ micros now - micros m.last_ts then 0 else m.real_speed) := by
  unfold usec_ok at hl hu
  unfold ts_le at hle
  have hsd : to_i32 (now.tv_sec - m.last_ts.tv_sec) = now.tv_sec - m.last_ts.tv_sec := by
    unfold to_i32; omega
  have hcond : (to_i32 (now.tv_sec - m.last_ts.tv_sec) > 1 ∨
      to_i32 (to_i32 (to_i32 (now.tv_sec - m.last_ts.tv_sec) * 1000000) + now.tv_usec
        - m.last_ts.tv_usec) ≥ 1000000) ↔ 1000000 ≤ micros now - micros m.last_ts := by
    rw [hsd]
    unfold micros
    by_cases h2 : now.tv_sec - m.last_ts.tv_sec > 1
    · constructor
      · intro _; omega
      · intro _; exact Or.inl h2
    · have hp : to_i32 ((now.tv_sec - m.last_ts.tv_sec) * 1000000) =
          (now.tv_sec - m.last_ts.tv_sec) * 1000000 := by
        unfold to_i32; omega
      rw [hp]
      unfold to_i32
      omega
  unfold cm_realspeed_get
  simp only [ne_eq, not_true_eq_false, if_false]
  by_cases hc : 1000000 ≤ micros now - micros m.last_ts
  · simp only [hcond.mpr hc, hc, if_true]
  · have hn : ¬ (to_i32 (now.tv_sec - m.last_ts.tv_sec) > 1 ∨
        to_i32 (to_i32 (to_i32 (now.tv_sec - m.last_ts.tv_sec) * 1000000) + now.tv_usec
          - m.last_ts.tv_usec) ≥ 1000000) := fun h => hc (hcond.mp h)
    rw [if_neg hn, if_neg hc]

/-- Witness for C14 (amended): a read 0.4 s after the last feed. -/
theorem stale_read_value_witness :
    cm_realspeed_get
        { last_ts := ⟨5, 200000⟩
          peak_ts := ⟨⟨5, 200000⟩, ⟨5, 200000⟩, ⟨5, 200000⟩⟩
          peak_speed := ⟨9, 9, 9⟩
          peak_period := period_default
          speed_slice := [0, 0, 9, 0, 0, 0, 0, 0, 0, 0]
          real_speed := 9 } 0 ⟨5, 600000⟩ =
      some ({ last_ts := ⟨5, 200000⟩
              peak_ts := ⟨⟨5, 200000⟩, ⟨5, 200000⟩, ⟨5, 200000⟩⟩
              peak_speed := ⟨9, 9, 9⟩
              peak_period := period_default
              speed_slice := [0, 0, 9, 0, 0, 0, 0, 0, 0, 0]
              real_speed := 9 }, 9) :=
  stale_read_value _ ⟨5, 600000⟩ (by decide) (by decide) (by decide) (by decide)

theorem cm_realspeed_get_frame (m : crossmeter_t) (now : timeval) :
    ∃ v, cm_realspeed_get m 0 now = some (m, v) := by
  unfold cm_realspeed_get
  simp only [ne_eq, not_true_eq_false, if_false]
  split_ifs
  · exact ⟨0, rfl⟩
  · exact ⟨m.real_speed, rfl⟩

theorem cm_peakspeed_get_frame (m m' : crossmeter_t) (k v : Nat) (t : Option timeval)
    (now : timeval) (h : cm_peakspeed_get m k now = some (m', v, t)) :
    m'.last_ts = m.last_ts ∧ m'.peak_period = m.peak_period ∧
      m'.speed_slice = m.speed_slice ∧ m'.real_speed = m.real_speed := by
  unfold cm_peakspeed_get at h
  split_ifs at h with hk
  · simp only [Option.some.injEq, Prod.mk.injEq] at h
    rw [← h.1]
    exact ⟨rfl, rfl, rfl, rfl⟩
  · cases hu : cm_peakspeed_update m 0 now with
    | none => simp [hu] at h
    | some m2 =>
      simp only [hu] at h
      split at h
      · simp only [Option.some.injEq, Prod.mk.injEq] at h
        rw [← h.1]
        exact peak_update_frame m m2 0 now hu
      · simp at h

theorem cm_peakspeed_getall_frame (m m' : crossmeter_t) (ps : peak_arr Nat)
    (pts : peak_arr timeval) (now : timeval)
    (h : cm_peakspeed_getall m now = some (m', ps, pts)) :
    m'.last_ts = m.last_ts ∧ m'.peak_period = m.peak_period ∧
      m'.speed_slice = m.speed_slice ∧ m'.real_speed = m.real_speed := by
  unfold cm_peakspeed_getall at h
  cases hu : cm_peakspeed_update m 0 now with
  | none => simp [hu] at h
  | some m2 =>
    simp only [hu, Option.some.injEq, Prod.mk.injEq] at h
    rw [← h.1]
    exact peak_update_frame m m2 0 now hu

/-- C15. Readers do not mutate the rate meter: `cm_realspeed_get` with
`bReal = 0` returns the meter unchanged (so a second read at the same clock
reading returns the same value); whatever `cm_peakspeed_get` and
`cm_peakspeed_getall` return, `last_ts`, `peak_period`, the buckets and
`real_speed` are those of the meter before the call; and with positive periods
both peak readers do return. -/
theorem readers_frame (m : crossmeter_t) (k : Nat) (now : timeval) :
    (∃ v, cm_realspeed_get m 0 now = some (m, v) ∧
      (cm_realspeed_get m 0 now).bind (fun x => cm_realspeed_get x.1 0 now) = some (m, v)) ∧
    (∀ m' v t, cm_peakspeed_get m k now = some (m', v, t) →
      m'.last_ts = m.last_ts ∧ m'.peak_period = m.peak_period ∧
        m'.speed_slice = m.speed_slice ∧ m'.real_speed = m.real_speed) ∧
    (∀ m' ps pts, cm_peakspeed_getall m now = some (m', ps, pts) →
      m'.last_ts = m.last_ts ∧ m'.peak_period = m.peak_period ∧
        m'.speed_slice = m.speed_slice ∧ m'.real_speed = m.real_speed) ∧
    (periods_pos m.peak_period →
      (∃ r, cm_peakspeed_get m k now = some r) ∧ ∃ r, cm_peakspeed_getall m now = some r) := by
  refine ⟨?_, ?_, ?_, ?_⟩
  · obtain ⟨v, hv⟩ := cm_realspeed_get_frame m now
    exact ⟨v, hv, by rw [hv]; exact hv⟩
  · intro m' v t h
    exact cm_peakspeed_get_frame m m' k v t now h
  · intro m' ps pts h
    exact cm_peakspeed_getall_frame m m' ps pts now h
  · intro hp
    obtain ⟨m2, e2, _⟩ := peak_update_total m 0 now hp
    constructor
    · unfold cm_peakspeed_get
      split_ifs with hk
      · exact ⟨_, rfl⟩
      · have hk3 : k < 3 := by unfold CM_PEAK_NUM at hk; omega
        simp only [e2]
        interval_cases k <;> exact ⟨_, rfl⟩
    · unfold cm_peakspeed_getall
      simp only [e2]
      exact ⟨_, rfl⟩

/-- Witness for C15: the readers on a meter that holds a rate and peaks, one
hour after its last feed. -/
theorem readers_frame_witness :
    (∃ r, cm_peakspeed_get
        { last_ts := ⟨5, 0⟩
          peak_ts := ⟨⟨5, 0⟩, ⟨5, 0⟩, ⟨5, 0⟩⟩
          peak_speed := ⟨9, 9, 9⟩
          peak_period := period_default
          speed_slice := [9, 0, 0, 0, 0, 0, 0, 0, 0, 0]
          real_speed := 9 } 1 ⟨3605, 0⟩ = some r) ∧
    ∃ r, cm_peakspeed_getall
        { last_ts := ⟨5, 0⟩
          peak_ts := ⟨⟨5, 0⟩, ⟨5, 0⟩, ⟨5, 0⟩⟩
          peak_speed := ⟨9, 9, 9⟩
          peak_period := period_default
          speed_slice := [9, 0, 0, 0, 0, 0, 0, 0, 0, 0]
          real_speed := 9 } ⟨3605, 0⟩ = some r :=
  (readers_frame _ 1 ⟨3605, 0⟩).2.2.2 (by decide)

/-- C20. SHORT never exceeds MEDIUM: `peak_speed[SHORT] <= peak_speed[MEDIUM]`
holds after `cm_speed_init`, and for every meter with positive periods in which
it holds, every rate and every timestamp, `cm_peakspeed_update` returns a meter
in which it holds. -/
theorem short_le_medium (p : Option (peak_arr Nat)) (m : crossmeter_t) (speed : Nat)
    (ts : timeval) :
    (cm_speed_init p).peak_speed.short ≤ (cm_speed_init p).peak_speed.medium ∧
    (periods_pos m.peak_period → m.peak_speed.short ≤ m.peak_speed.medium →
      ∃ m', cm_peakspeed_update m speed ts = some m' ∧
        m'.peak_speed.short ≤ m'.peak_speed.medium) := by
  refine ⟨le_refl _, fun hp hinv => ?_⟩
  obtain ⟨m1, e1, r1, _, r3, _, _, _⟩ := peak_rollover_fields m speed ts hp
  obtain ⟨c1, _, c3, _, _, _⟩ := peak_cascade_fields m1 speed ts
  have e : cm_peakspeed_update m speed ts = some (peak_cascade m1 speed ts) := by
    unfold cm_peakspeed_update; rw [e1]
  refine ⟨_, e, ?_⟩
  rw [c1, c3, r1, r3]
  split_ifs <;> omega

/-- Witness for C20: an update that rolls SHORT over without rolling MEDIUM. -/
theorem short_le_medium_witness :
    ∃ m', cm_peakspeed_update
        { last_ts := ⟨1, 0⟩
          peak_ts := ⟨⟨1, 0⟩, ⟨1, 0⟩, ⟨1, 0⟩⟩
          peak_speed := ⟨5, 5, 5⟩
          peak_period := ⟨2, 8, 32⟩
          speed_slice := [5, 0, 0, 0, 0, 0, 0, 0, 0, 0]
          real_speed := 5 } 3 ⟨4, 0⟩ = some m' ∧
      m'.peak_speed.short ≤ m'.peak_speed.medium :=
  (short_le_medium none _ 3 ⟨4, 0⟩).2 (by decide) (by decide)

/-! ## Partial rotation -/

theorem expire_range_get (n : Nat) : ∀ (i : Nat) (slice : List Nat) (s : Nat)
    (sl : List Nat) (s' : Nat), expire_range n i slice s = some (sl, s') →
    ∀ j, sl[j]? = if i ≤ j ∧ j < i + n then some 0 else slice[j]? := by
  induction n with
  | zero =>
    intro i slice s sl s' h j
    simp only [expire_range, Option.some.injEq, Prod.mk.injEq] at h
    have hn : ¬ (i ≤ j ∧ j < i + 0) := by omega
    rw [if_neg hn, ← h.1]
  | succ n ih =>
    intro i slice s sl s' h j
    cases hv : slice[i]? with
    | none => simp [expire_range, hv] at h
    | some v =>
      simp only [expire_range, hv] at h
      have hi : i < slice.length := by
        by_contra hc
        rw [List.getElem?_eq_none (by omega)] at hv
        exact Option.noConfusion hv
      rw [ih (i + 1) (slice.set i 0) _ sl s' h j, List.getElem?_set]
      by_cases e : i = j
      · subst e
        simp [hi]
      · by_cases h1 : i + 1 ≤ j ∧ j < i + 1 + n
        · have h2 : i ≤ j ∧ j < i + (n + 1) := by omega
          simp [h1, h2]
        · have h2 : ¬ (i ≤ j ∧ j < i + (n + 1)) := by omega
          simp [h1, h2, e]

theorem expire_range_lt (n : Nat) : ∀ (i : Nat) (slice : List Nat) (s : Nat)
    (sl : List Nat) (s' : Nat), s < U32 → expire_range n i slice s = some (sl, s') →
    s' < U32 := by
  induction n with
  | zero =>
    intro i slice s sl s' hs h
    simp only [expire_range, Option.some.injEq, Prod.mk.injEq] at h
    omega
  | succ n ih =>
    intro i slice s sl s' _ h
    cases hv : slice[i]? with
    | none => simp [expire_range, hv] at h
    | some v =>
      simp only [expire_range, hv] at h
      exact ih (i + 1) _ _ sl s' (Nat.mod_lt _ (by decide)) h

theorem sum_masked (P : Nat → Bool) : ∀ (slice sl : List Nat) (k : Nat),
    sl.length = slice.length →
    (∀ j, j < slice.length → sl[j]? = if P (k + j) then some 0 else slice[j]?) →
    slice.sum = sl.sum + masked_sum P k slice := by
  intro slice
  induction slice with
  | nil =>
    intro sl k hl _
    have : sl = [] := List.length_eq_zero.mp (by simpa using hl)
    subst this
    rfl
  | cons a l ih =>
    intro sl k hl h
    cases sl with
    | nil => simp at hl
    | cons b l' =>
      have h0 := h 0 (by simp)
      have hrest := ih l' (k + 1) (by simpa using hl) (by
        intro j hj
        have := h (j + 1) (by simpa using hj)
        simp only [List.getElem?_cons_succ] at this
        rw [this]
        have e : k + (j + 1) = k + 1 + j := by omega
        rw [e])
      simp only [List.getElem?_cons_zero, Nat.add_zero] at h0
      simp only [List.sum_cons, masked_sum]
      by_cases hp : P k = true
      · simp only [hp, if_true, Option.some.injEq] at h0
        simp only [hp, if_true]
        omega
      · simp only [hp, Bool.false_eq_true, if_false, Option.some.injEq] at h0
        simp only [hp, Bool.false_eq_true, if_false]
        omega

/-- Result of a partial rotation between two valid slots: the visited buckets
are cleared, the others kept, and `sum_rm` is the sum of the cleared values
modulo 2^32. -/
theorem rotate_spec (slice : List Nat) (last_slot cur_slot : Nat)
    (hl : slice.length = CM_TIME_SLOT) (hc : cur_slot < CM_TIME_SLOT)
    (hls : last_slot < CM_TIME_SLOT) :
    ∃ sl s', rotate slice last_slot cur_slot = some (sl, s') ∧ sl.length = CM_TIME_SLOT ∧
      s' < U32 ∧ slice.sum = sl.sum + cleared_sum slice last_slot cur_slot ∧
      s' = cleared_sum slice last_slot cur_slot % U32 ∧
      ∀ j, j < CM_TIME_SLOT →
        sl[j]? = if visited last_slot cur_slot j then some 0 else slice[j]? := by
  have hU : 0 < U32 := by decide
  have main : ∃ sl s', rotate slice last_slot cur_slot = some (sl, s') ∧
      sl.length = CM_TIME_SLOT ∧ s' < U32 ∧ (sl.sum + s') % U32 = slice.sum % U32 ∧
      ∀ j, j < CM_TIME_SLOT →
        sl[j]? = if visited last_slot cur_slot j then some 0 else slice[j]? := by
    obtain ⟨sl, s', e, l, q⟩ := rotate_ok slice last_slot cur_slot hl hc
    refine ⟨sl, s', e, l, ?_, q, ?_⟩
    · unfold rotate at e
      split_ifs at e with h1 h2
      · exact expire_range_lt _ _ _ 0 sl s' hU e
      · cases h3 : expire_range (CM_TIME_SLOT - (last_slot + 1) % U32)
            ((last_slot + 1) % U32) slice 0 with
        | none => simp [h3] at e
        | some x =>
          obtain ⟨sl1, s1⟩ := x
          simp only [h3] at e
          exact expire_range_lt _ _ _ s1 sl s' (expire_range_lt _ _ _ 0 sl1 s1 hU h3) e
      · simp only [Option.some.injEq, Prod.mk.injEq] at e
        omega
    · intro j hj
      unfold CM_TIME_SLOT at hj hc hls
      unfold rotate at e
      unfold visited
      split_ifs at e with h1 h2
      · rw [expire_range_get _ _ _ _ sl s' e j]
        by_cases hv : last_slot + 1 ≤ j ∧ j < last_slot + 1 + (cur_slot + 1 - (last_slot + 1))
        · have hv' : (last_slot < cur_slot ∧ last_slot < j ∧ j ≤ cur_slot) ∨
              (cur_slot < last_slot ∧ (last_slot < j ∨ j ≤ cur_slot)) := by omega
          simp only [hv, hv', and_self, if_true]
        · have hv' : ¬ ((last_slot < cur_slot ∧ last_slot < j ∧ j ≤ cur_slot) ∨
              (cur_slot < last_slot ∧ (last_slot < j ∨ j ≤ cur_slot))) := by omega
          rw [if_neg hv, if_neg hv']
      · have em : (last_slot + 1) % U32 = last_slot + 1 := by unfold U32; omega
        rw [em] at e
        cases h3 : expire_range (CM_TIME_SLOT - (last_slot + 1)) (last_slot + 1) slice 0 with
        | none => simp [h3] at e
        | some x =>
          obtain ⟨sl1, s1⟩ := x
          simp only [h3] at e
          rw [expire_range_get _ _ _ _ sl s' e j, expire_range_get _ _ _ _ sl1 s1 h3 j]
          unfold CM_TIME_SLOT
          by_cases hv : (last_slot < cur_slot ∧ last_slot < j ∧ j ≤ cur_slot) ∨
              (cur_slot < last_slot ∧ (last_slot < j ∨ j ≤ cur_slot))
          · rw [if_pos hv]
            by_cases ha : 0 ≤ j ∧ j < 0 + (cur_slot + 1)
            · rw [if_pos ha]
            · rw [if_neg ha, if_pos (by omega)]
          · rw [if_neg hv, if_neg (by omega), if_neg (by omega)]
      · simp only [Option.some.injEq, Prod.mk.injEq] at e
        rw [← e.1]
        have hv' : ¬ ((last_slot < cur_slot ∧ last_slot < j ∧ j ≤ cur_slot) ∨
            (cur_slot < last_slot ∧ (last_slot < j ∨ j ≤ cur_slot))) := by omega
        rw [if_neg hv']
  obtain ⟨sl, s', e, l, lt, q, g⟩ := main
  have hsum : slice.sum = sl.sum + cleared_sum slice last_slot cur_slot := by
    unfold cleared_sum
    apply sum_masked _ slice sl 0 (by rw [l, hl])
    intro j hj
    rw [hl] at hj
    rw [g j hj]
    simp only [Nat.zero_add, decide_eq_true_eq]
  refine ⟨sl, s', e, l, lt, hsum, ?_, g⟩
  unfold U32 at *
  omega

theorem feed_window_rotated (m : crossmeter_t) (inc_val : Nat) (ts : timeval)
    (sl : List Nat) (s' v : Nat) (he : window_expired m ts = false)
    (hrot : rotate m.speed_slice (slot_of m.last_ts) (slot_of ts) = some (sl, s'))
    (hget : sl[slot_of ts]? = some v) :
    feed_window m inc_val ts =
      some { m with
        speed_slice := sl.set (slot_of ts) ((v + inc_val) % U32)
        real_speed := ((m.real_speed + inc_val) % U32 + (U32 - s' % U32)) % U32 } := by
  unfold feed_window
  simp only [he, Bool.false_eq_true, if_false, hrot, hget]

theorem not_expired_of_lt (m : crossmeter_t) (ts : timeval)
    (hl : usec_ok m.last_ts) (hu : usec_ok ts) (hs : stale m ts = false)
    (hel : micros ts - micros m.last_ts < 1000000) : window_expired m ts = false := by
  have hle := (stale_false_iff m ts).mp hs
  have hiff := window_expired_iff m ts hl hu hs (by
    unfold usec_ok at hl hu
    unfold micros at hel
    unfold U32
    push_cast
    omega)
  cases h : window_expired m ts with
  | false => rfl
  | true =>
    have := hiff.mp h
    omega

/-- C18. Partial rotation postcondition: for a well-formed meter and a
non-stale feed less than 1,000,000 us after `last_ts` (both `tv_usec` in
range, `inc_val < 2^32`): both slots are below 10 and equal
`floor(usec * 10 / 1000000)`; the feed returns (no bucket outside the array is
touched); bucket `cur_slot` ends with `inc_val`, or with old value + `inc_val`
modulo 2^32 when `cur_slot == last_slot`; every other bucket of the cyclic
range `last_slot+1 .. cur_slot` ends with 0; every bucket outside the range
keeps its value; and the new `real_speed` is the old one minus the cleared
values plus `inc_val`, modulo 2^32. -/
theorem partial_rotation (m : crossmeter_t) (inc_val : Nat) (ts : timeval)
    (hw : well_formed m) (hl : usec_ok m.last_ts) (hu : usec_ok ts)
    (hs : stale m ts = false) (hel : micros ts - micros m.last_ts < 1000000)
    (hi : inc_val < U32) :
    slot_of m.last_ts < CM_TIME_SLOT ∧ slot_of ts < CM_TIME_SLOT ∧
    (slot_of m.last_ts : Int) = m.last_ts.tv_usec * 10 / 1000000 ∧
    (slot_of ts : Int) = ts.tv_usec * 10 / 1000000 ∧
    ∃ m' r, cm_speed_feed m inc_val ts = some (m', r) ∧ r = m'.real_speed ∧
      m'.speed_slice.length = CM_TIME_SLOT ∧
      (∀ j, j < CM_TIME_SLOT →
        m'.speed_slice[j]? =
          if j = slot_of ts then
            some (if slot_of ts = slot_of m.last_ts then
              (m.speed_slice.getD j 0 + inc_val) % U32 else inc_val)
          else if visited (slot_of m.last_ts) (slot_of ts) j then some 0
          else m.speed_slice[j]?) ∧
      m'.real_speed < U32 ∧
      (m'.real_speed + cleared_sum m.speed_slice (slot_of m.last_ts) (slot_of ts)) % U32 =
        (m.real_speed + inc_val) % U32 := by
  obtain ⟨hls, hls10⟩ := slot_of_eq m.last_ts hl
  obtain ⟨hcs, hcs10⟩ := slot_of_eq ts hu
  have hl' := hl
  have hu' := hu
  unfold usec_ok at hl' hu'
  refine ⟨hls10, hcs10, by omega, by omega, ?_⟩
  have he := not_expired_of_lt m ts hl hu hs hel
  obtain ⟨sl, s', hrot, hlen, _, hsum, hs', hget⟩ :=
    rotate_spec m.speed_slice (slot_of m.last_ts) (slot_of ts) hw.1 hcs10 hls10
  have hlt : slot_of ts < sl.length := by rw [hlen]; exact hcs10
  obtain ⟨v, hv⟩ : ∃ v, sl[slot_of ts]? = some v :=
    ⟨sl[slot_of ts], List.getElem?_eq_getElem hlt⟩
  have hfw := feed_window_rotated m inc_val ts sl s' v he hrot hv
  obtain ⟨m2, e2, _, _, hs2, hr2⟩ :=
    peak_update_total
      { m with
        speed_slice := sl.set (slot_of ts) ((v + inc_val) % U32)
        real_speed := ((m.real_speed + inc_val) % U32 + (U32 - s' % U32)) % U32 }
      (((m.real_speed + inc_val) % U32 + (U32 - s' % U32)) % U32) ts hw.2
  refine ⟨{ m2 with last_ts := ts }, m2.real_speed, ?_, rfl, ?_, ?_, ?_, ?_⟩
  · rw [cm_speed_feed_accept m inc_val ts hs]
    simp only [hfw, e2]
  · simp only [hs2]; simpa using hlen
  · intro j hj
    simp only [hs2]
    rw [List.getElem?_set]
    by_cases e : slot_of ts = j
    · subst e
      have hold := hget (slot_of ts) hj
      rw [hv] at hold
      rw [if_pos rfl, if_pos hlt, if_pos rfl]
      by_cases e2 : slot_of ts = slot_of m.last_ts
      · have hnv : ¬ visited (slot_of m.last_ts) (slot_of ts) (slot_of ts) := by
          unfold visited; omega
        rw [if_neg hnv] at hold
        have hd : m.speed_slice.getD (slot_of ts) 0 = v := by
          rw [List.getD_eq_getElem?_getD, ← hold]; rfl
        rw [if_pos e2, hd]
      · have hvis : visited (slot_of m.last_ts) (slot_of ts) (slot_of ts) := by
          unfold visited; omega
        rw [if_pos hvis] at hold
        simp only [Option.some.injEq] at hold
        rw [if_neg e2, hold, Nat.zero_add, Nat.mod_eq_of_lt hi]
    · have e' : ¬ j = slot_of ts := fun h => e h.symm
      rw [if_neg e, if_neg e']
      exact hget j hj
  · rw [hr2]
    exact Nat.mod_lt _ (by decide)
  · rw [hr2]
    simp only
    unfold U32 at *
    omega

/-- Witness for C18: a feed 0.25 s after the last one, from slot 9 to slot 1. -/
theorem partial_rotation_witness :
    slot_of (⟨5, 950000⟩ : timeval) < CM_TIME_SLOT ∧
    slot_of (⟨6, 200000⟩ : timeval) < CM_TIME_SLOT ∧
    (slot_of (⟨5, 950000⟩ : timeval) : Int) = (950000 : Int) * 10 / 1000000 ∧
    (slot_of (⟨6, 200000⟩ : timeval) : Int) = (200000 : Int) * 10 / 1000000 ∧
    ∃ m' r, cm_speed_feed
        { last_ts := ⟨5, 950000⟩
          peak_ts := ⟨⟨5, 950000⟩, ⟨5, 950000⟩, ⟨5, 950000⟩⟩
          peak_speed := ⟨45, 45, 45⟩
          peak_period := period_default
          speed_slice := [0, 1, 2, 3, 4, 5, 6, 7, 8, 9]
          real_speed := 45 } 100 ⟨6, 200000⟩ = some (m', r) ∧
      r = m'.real_speed ∧ m'.speed_slice.length = CM_TIME_SLOT ∧
      (∀ j, j < CM_TIME_SLOT →
        m'.speed_slice[j]? =
          if j = slot_of ⟨6, 200000⟩ then
            some (if slot_of (⟨6, 200000⟩ : timeval) = slot_of (⟨5, 950000⟩ : timeval) then
              (([0, 1, 2, 3, 4, 5, 6, 7, 8, 9] : List Nat).getD j 0 + 100) % U32 else 100)
          else if visited (slot_of ⟨5, 950000⟩) (slot_of ⟨6, 200000⟩) j then some 0
          else ([0, 1, 2, 3, 4, 5, 6, 7, 8, 9] : List Nat)[j]?) ∧
      m'.real_speed < U32 ∧
      (m'.real_speed + cleared_sum [0, 1, 2, 3, 4, 5, 6, 7, 8, 9] (slot_of ⟨5, 950000⟩)
        (slot_of ⟨6, 200000⟩)) % U32 = (45 + 100) % U32 :=
  partial_rotation
    { last_ts := ⟨5, 950000⟩
      peak_ts := ⟨⟨5, 950000⟩, ⟨5, 950000⟩, ⟨5, 950000⟩⟩
      peak_speed := ⟨45, 45, 45⟩
      peak_period := period_default
      speed_slice := [0, 1, 2, 3, 4, 5, 6, 7, 8, 9]
      real_speed := 45 } 100 ⟨6, 200000⟩ (by decide) (by decide) (by decide) (by decide)
    (by decide) (by decide)

/-! ## Exact peaks of SHORT and MEDIUM -/

/-- The peak state after an accepted feed: the roll-over checks and the
cascade for the sample (returned rate, timestamp of the feed). -/
theorem feed_peak_fields (m m' : crossmeter_t) (inc_val r : Nat) (ts : timeval)
    (hp : periods_pos m.peak_period) (hs : stale m ts = false)
    (h : cm_speed_feed m inc_val ts = some (m', r)) :
    ∃ ma, rollover_of m ma r ts ∧ cascade_of ma m' r ts ∧ m'.last_ts = ts ∧
      m'.peak_period = m.peak_period := by
  rcases cm_speed_feed_cases m m' inc_val r ts h with ⟨hst, _⟩ | ⟨_, m1, m2, s1, hu, s2, hl, hr⟩
  · rw [hs] at hst; exact Bool.noConfusion hst
  · obtain ⟨f1, f2, f3, f4⟩ := peak_update_frame m1 m2 _ ts hu
    have hr1 : m1.real_speed = r := by rw [hr, f4]
    rw [hr1] at hu
    have hp1 : periods_pos m1.peak_period := by rw [s1.2.2]; exact hp
    obtain ⟨ma, ea, a1, a2, a3, a4, a5, a6⟩ := peak_rollover_fields m1 r ts hp1
    obtain ⟨c1, c2, c3, c4, c5, c6⟩ := peak_cascade_fields ma r ts
    have e : cm_peakspeed_update m1 r ts = some (peak_cascade ma r ts) := by
      unfold cm_peakspeed_update; rw [ea]
    rw [e] at hu
    simp only [Option.some.injEq] at hu
    obtain ⟨t1, t2, t3⟩ := s1
    obtain ⟨u1, u2, u3⟩ := s2
    simp only [t1, t2, t3] at a1 a2 a3 a4 a5 a6
    refine ⟨ma, ⟨a1, a2, a3, a4, a5, a6⟩, ?_, hl, ?_⟩
    · unfold cascade_of
      rw [u1, u2, ← hu]
      exact ⟨c1, c2, c3, c4, c5, c6⟩
    · rw [u3, f2, t3]

/-- Induction over a feed sequence: an invariant `I` of the remaining feeds,
the meter and the log that survives a rejected feed and is re-established by an
accepted one holds at the end, and every call returns. -/
theorem feed_log_induct
    (I : List (Nat × timeval) → crossmeter_t → List (timeval × Nat × Nat) → Prop)
    (hrej : ∀ f fs m log, I (f :: fs) m log → stale m f.2 = true → I fs m log)
    (hacc : ∀ f fs m m' r log, well_formed m → usec_ok f.2 → I (f :: fs) m log →
      stale m f.2 = false → cm_speed_feed m f.1 f.2 = some (m', r) →
      I fs m' ((f.2, f.1, r) :: log)) :
    ∀ (fs : List (Nat × timeval)) (m : crossmeter_t) (r : Nat)
      (log : List (timeval × Nat × Nat)),
      well_formed m → (∀ f ∈ fs, usec_ok f.2) → I fs m log →
      ∃ m' r' log', feed_log m r log fs = some (m', r', log') ∧ I [] m' log' ∧
        well_formed m' ∧ m'.peak_period = m.peak_period := by
  intro fs
  induction fs with
  | nil =>
    intro m r log hw _ hI
    exact ⟨m, r, log, rfl, hI, hw, rfl⟩
  | cons f fs ih =>
    intro m r log hw hu hI
    have huf := hu f (List.mem_cons_self _ _)
    obtain ⟨m1, r1, e1, _, hw1, hp1, _⟩ := cm_speed_feed_total m f.1 f.2 hw huf
    cases hs : stale m f.2 with
    | true =>
      have e1' := cm_speed_feed_stale m f.1 f.2 hs
      obtain ⟨m2, r2, log2, e2, hI2, hw2, hp2⟩ := ih m m.real_speed log hw
        (fun g hg => hu g (List.mem_cons_of_mem _ hg)) (hrej f fs m log hI hs)
      refine ⟨m2, r2, log2, ?_, hI2, hw2, hp2⟩
      simp only [feed_log, e1', hs, if_true]
      exact e2
    | false =>
      obtain ⟨m2, r2, log2, e2, hI2, hw2, hp2⟩ := ih m1 r1 ((f.2, f.1, r1) :: log) hw1
        (fun g hg => hu g (List.mem_cons_of_mem _ hg)) (hacc f fs m m1 r1 log hw huf hI hs e1)
      refine ⟨m2, r2, log2, ?_, hI2, hw2, hp2.trans hp1⟩
      simp only [feed_log, e1, hs, Bool.false_eq_true, if_false]
      exact e2

theorem epoch_max_congr (P : Nat) (t t' : timeval) (log : List (timeval × Nat × Nat))
    (h : epoch t P = epoch t' P) : epoch_max P t log = epoch_max P t' log := by
  induction log with
  | nil => rfl
  | cons x log ih => simp only [epoch_max, h, ih]

theorem epoch_max_zero (P : Nat) (t : timeval) (log : List (timeval × Nat × Nat))
    (h : ∀ x ∈ log, epoch x.1 P < epoch t P) : epoch_max P t log = 0 := by
  induction log with
  | nil => rfl
  | cons x log ih =>
    have h1 := h x (List.mem_cons_self _ _)
    have hne : ¬ epoch x.1 P = epoch t P := by omega
    simp only [epoch_max, hne, if_false]
    exact ih (fun y hy => h y (List.mem_cons_of_mem _ hy))

/-- What the log of an epoch contributes once the accepted feed `(t, r)` is
added: nothing when `t` starts a new epoch, the previous maximum otherwise. -/
theorem epoch_max_step (P : Nat) (last t : timeval) (log : List (timeval × Nat × Nat))
    (h0 : 0 ≤ last.tv_sec) (hle : last.tv_sec ≤ t.tv_sec)
    (hlog : ∀ x ∈ log, x.1.tv_sec ≤ last.tv_sec) :
    epoch last P ≤ epoch t P ∧
    (epoch last P < epoch t P → epoch_max P t log = 0) ∧
    (epoch last P = epoch t P → epoch_max P t log = epoch_max P last log) := by
  refine ⟨epoch_mono_nonneg last t P (by omega) hle, ?_, ?_⟩
  · intro hlt
    apply epoch_max_zero
    intro x hx
    have := epoch_mono_nonneg x.1 last P h0 (hlog x hx)
    omega
  · intro he
    exact epoch_max_congr P t last log he.symm

theorem short_inv_step (f : Nat × timeval) (m m' : crossmeter_t) (r : Nat)
    (log : List (timeval × Nat × Nat)) (hI : short_inv m log) (hs : stale m f.2 = false)
    (h : cm_speed_feed m f.1 f.2 = some (m', r)) : short_inv m' ((f.2, f.1, r) :: log) := by
  obtain ⟨hp, h0, hlog, hts, hpk, hstale, _⟩ := hI
  obtain ⟨ma, ⟨a1, a2, _, _, _, _⟩, ⟨c1, c2, _, _, _, _⟩, hl, hper⟩ :=
    feed_peak_fields m m' f.1 r f.2 hp hs h
  have hle := (stale_false_iff m f.2).mp hs
  have hsec : m.last_ts.tv_sec ≤ f.2.tv_sec := by unfold ts_le at hle; omega
  obtain ⟨e1, e2, e3⟩ := epoch_max_step m.peak_period.short m.last_ts f.2 log h0 hsec hlog
  have e4 := epoch_mono_nonneg m.peak_ts.short m.last_ts m.peak_period.short h0 hts
  unfold short_inv
  rw [hper, hl, c1, c2, a1, a2]
  refine ⟨hp, by omega, ?_, ?_, ?_, ?_, ?_⟩
  · intro x hx
    rcases List.mem_cons.mp hx with rfl | hx
    · exact le_refl _
    · have := hlog x hx; omega
  · split_ifs <;> omega
  · simp only [epoch_max, if_true]
    rw [hpk] at hstale
    rw [hpk]
    split_ifs <;> omega
  · rw [hpk] at hstale
    rw [hpk]
    split_ifs <;> omega
  · intro x hx
    simp only [List.head?_cons, Option.some.injEq] at hx
    rw [← hx]

theorem init_short_inv (p : Option (peak_arr Nat))
    (hp : periods_pos (cm_speed_init p).peak_period) : short_inv (cm_speed_init p) [] := by
  obtain ⟨its, isp, ilast⟩ := init_peak_state p
  unfold short_inv
  rw [its, isp, ilast]
  refine ⟨hp, le_refl _, ?_, le_refl _, rfl, ?_, ?_⟩
  · intro x hx; simp at hx
  · intro _; rfl
  · intro x hx; simp at hx

/-- C16. SHORT peak is exact: on a meter initialised with positive periods,
after any sequence of `cm_speed_feed` calls (`tv_usec` in range; calls with an
earlier timestamp are rejected and not logged) every call has returned, and
`peak_speed[SHORT]` is the largest rate returned by the accepted feeds whose
`tv_sec` lies in the SHORT epoch of the latest accepted feed, whose timestamp
is `last_ts`. -/
theorem short_peak_exact (p : Option (peak_arr Nat)) (fs : List (Nat × timeval))
    (hp : periods_pos (cm_speed_init p).peak_period) (hu : ∀ f ∈ fs, usec_ok f.2) :
    ∃ m r log, feed_log (cm_speed_init p) 0 [] fs = some (m, r, log) ∧
      (∀ x, log.head? = some x → x.1 = m.last_ts) ∧
      m.peak_period = (cm_speed_init p).peak_period ∧
      m.peak_speed.short = epoch_max m.peak_period.short m.last_ts log := by
  have hw : well_formed (cm_speed_init p) :=
    ⟨by simp [cm_speed_init, cm_peakperiod_setall, zeroed], hp⟩
  obtain ⟨m, r, log, e, hI, _, hper⟩ :=
    feed_log_induct (fun _ m log => short_inv m log)
      (fun _ _ _ _ hI _ => hI)
      (fun f _ m m' r log _ _ hI hs h => short_inv_step f m m' r log hI hs h)
      fs (cm_speed_init p) 0 [] hw hu (init_short_inv p hp)
  obtain ⟨_, _, _, _, hpk, _, hhead⟩ := hI
  exact ⟨m, r, log, e, hhead, hper, hpk⟩

/-- Witness for C16: rates 5 and 2 in one hour, then a rate of 0 in the next
hour, which resets the SHORT peak to 0 and leaves its timestamp at 10 s. -/
theorem short_peak_exact_witness :
    (∃ m r log, feed_log (cm_speed_init none) 0 []
        [(5, ⟨10, 0⟩), (2, ⟨20, 0⟩), (0, ⟨3601, 0⟩)] = some (m, r, log) ∧
      (∀ x, log.head? = some x → x.1 = m.last_ts) ∧
      m.peak_period = (cm_speed_init none).peak_period ∧
      m.peak_speed.short = epoch_max m.peak_period.short m.last_ts log) ∧
    (feed_log (cm_speed_init none) 0 []
        [(5, ⟨10, 0⟩), (2, ⟨20, 0⟩), (0, ⟨3601, 0⟩)]).map
      (fun x => (x.1.peak_speed.short, x.1.peak_ts.short, x.2.2)) =
        some (0, ⟨10, 0⟩, [(⟨3601, 0⟩, 0, 0), (⟨20, 0⟩, 2, 2), (⟨10, 0⟩, 5, 5)]) :=
  ⟨short_peak_exact none [(5, ⟨10, 0⟩), (2, ⟨20, 0⟩), (0, ⟨3601, 0⟩)] (by decide) (by decide),
    by decide⟩

theorem medium_inv_step (f : Nat × timeval) (m m' : crossmeter_t) (r : Nat)
    (log : List (timeval × Nat × Nat)) (hI : medium_inv m log) (hs : stale m f.2 = false)
    (h : cm_speed_feed m f.1 f.2 = some (m', r)) : medium_inv m' ((f.2, f.1, r) :: log) := by
  obtain ⟨hp, hn, h0, hlog, s0, s1, m0, m1, hep, hpk, hsm, hj, _⟩ := hI
  obtain ⟨ma, ⟨a1, a2, a3, a4, _, _⟩, ⟨c1, c2, c3, c4, _, _⟩, hl, hper⟩ :=
    feed_peak_fields m m' f.1 r f.2 hp hs h
  have hle := (stale_false_iff m f.2).mp hs
  have hsec : m.last_ts.tv_sec ≤ f.2.tv_sec := by unfold ts_le at hle; omega
  have ht0 : 0 ≤ f.2.tv_sec := by omega
  obtain ⟨e1, e2, e3⟩ := epoch_max_step m.peak_period.medium m.last_ts f.2 log h0 hsec hlog
  have F2 := epoch_coarsen f.2 m.peak_ts.short _ _ hn ht0 s0
  unfold medium_inv
  rw [hper, hl, c1, c2, c3, c4, a1, a2, a3, a4]
  rw [hpk] at hsm
  refine ⟨hp, hn, ht0, ?_, ?_, ?_, ?_, ?_, ?_, ?_, ?_, ?_, ?_⟩
  · intro x hx
    rcases List.mem_cons.mp hx with rfl | hx
    · exact le_refl _
    · have := hlog x hx; omega
  · split_ifs <;> omega
  · split_ifs <;> omega
  · split_ifs <;> omega
  · split_ifs <;> omega
  · rw [hpk]
    split_ifs <;> omega
  · simp only [epoch_max, if_true]
    rw [hpk]
    split_ifs <;> omega
  · rw [hpk]
    split_ifs <;> omega
  · rw [hpk]
    split_ifs <;> omega
  · intro x hx
    simp only [List.head?_cons, Option.some.injEq] at hx
    rw [← hx]

theorem init_medium_inv (p : Option (peak_arr Nat))
    (hp : periods_pos (cm_speed_init p).peak_period)
    (hn : (cm_speed_init p).peak_period.short ∣ (cm_speed_init p).peak_period.medium) :
    medium_inv (cm_speed_init p) [] := by
  obtain ⟨its, isp, ilast⟩ := init_peak_state p
  unfold medium_inv
  rw [its, isp, ilast]
  refine ⟨hp, hn, le_refl _, ?_, le_refl _, le_refl _, le_refl _, le_refl _, rfl, rfl,
    le_refl _, le_refl _, ?_⟩
  · intro x hx; simp at hx
  · intro x hx; simp at hx

/-- C17. MEDIUM peak is exact under nested periods: on a meter initialised
with positive periods of which MEDIUM is a multiple of SHORT, after any
sequence of `cm_speed_feed` calls (`tv_usec` in range; calls with an earlier
timestamp are rejected and not logged) every call has returned,
`peak_ts[MEDIUM]` lies in the MEDIUM epoch of the latest accepted feed, whose
timestamp is `last_ts`, and `peak_speed[MEDIUM]` is the largest rate returned
by the accepted feeds whose `tv_sec` lies in that epoch. -/
theorem medium_peak_exact (p : Option (peak_arr Nat)) (fs : List (Nat × timeval))
    (hp : periods_pos (cm_speed_init p).peak_period)
    (hn : (cm_speed_init p).peak_period.short ∣ (cm_speed_init p).peak_period.medium)
    (hu : ∀ f ∈ fs, usec_ok f.2) :
    ∃ m r log, feed_log (cm_speed_init p) 0 [] fs = some (m, r, log) ∧
      (∀ x, log.head? = some x → x.1 = m.last_ts) ∧
      m.peak_period = (cm_speed_init p).peak_period ∧
      epoch m.peak_ts.medium m.peak_period.medium = epoch m.last_ts m.peak_period.medium ∧
      m.peak_speed.medium = epoch_max m.peak_period.medium m.last_ts log := by
  have hw : well_formed (cm_speed_init p) :=
    ⟨by simp [cm_speed_init, cm_peakperiod_setall, zeroed], hp⟩
  obtain ⟨m, r, log, e, hI, _, hper⟩ :=
    feed_log_induct (fun _ m log => medium_inv m log)
      (fun _ _ _ _ hI _ => hI)
      (fun f _ m m' r log _ _ hI hs h => medium_inv_step f m m' r log hI hs h)
      fs (cm_speed_init p) 0 [] hw hu (init_medium_inv p hp hn)
  obtain ⟨_, _, _, _, _, _, _, _, hep, hpk, _, _, hhead⟩ := hI
  exact ⟨m, r, log, e, hhead, hper, hep, hpk⟩

/-- Witness for C17: periods {2, 8, 32}; rates 3 and 5 in MEDIUM epoch 0, then
a rate of 1 that starts MEDIUM epoch 1 and becomes its peak. -/
theorem medium_peak_exact_witness :
    (∃ m r log, feed_log (cm_speed_init (some ⟨2, 8, 32⟩)) 0 []
        [(3, ⟨0, 0⟩), (5, ⟨3, 0⟩), (1, ⟨9, 0⟩)] = some (m, r, log) ∧
      (∀ x, log.head? = some x → x.1 = m.last_ts) ∧
      m.peak_period = (cm_speed_init (some ⟨2, 8, 32⟩)).peak_period ∧
      epoch m.peak_ts.medium m.peak_period.medium = epoch m.last_ts m.peak_period.medium ∧
      m.peak_speed.medium = epoch_max m.peak_period.medium m.last_ts log) ∧
    (feed_log (cm_speed_init (some ⟨2, 8, 32⟩)) 0 []
        [(3, ⟨0, 0⟩), (5, ⟨3, 0⟩), (1, ⟨9, 0⟩)]).map
      (fun x => (x.1.peak_speed.medium, x.1.peak_ts.medium)) = some (1, ⟨9, 0⟩) :=
  ⟨medium_peak_exact (some ⟨2, 8, 32⟩) [(3, ⟨0, 0⟩), (5, ⟨3, 0⟩), (1, ⟨9, 0⟩)]
    (by decide) (by decide) (by decide), by decide⟩

/-! ## No recent increment is dropped -/

theorem held_zero (g : Int) (j : Nat) (log : List (timeval × Nat × Nat))
    (h : ∀ x ∈ log, ¬ (gslot x.1 % 10 = (j : Int) ∧ g - gslot x.1 ≤ 9)) :
    held g j log = 0 := by
  induction log with
  | nil => rfl
  | cons x log ih =>
    simp only [held, if_neg (h x (List.mem_cons_self _ _)), Nat.zero_add]
    exact ih (fun y hy => h y (List.mem_cons_of_mem _ hy))

theorem held_mono (g g' : Int) (j : Nat) (log : List (timeval × Nat × Nat)) (h : g ≤ g') :
    held g' j log ≤ held g j log := by
  induction log with
  | nil => exact le_refl _
  | cons x log ih =>
    simp only [held]
    split_ifs <;> omega

theorem held_total (g : Int) (log : List (timeval × Nat × Nat)) :
    held g 0 log + held g 1 log + held g 2 log + held g 3 log + held g 4 log +
      held g 5 log + held g 6 log + held g 7 log + held g 8 log + held g 9 log =
      recent_g g log := by
  induction log with
  | nil => rfl
  | cons x log ih =>
    simp only [held, recent_g]
    by_cases hc : g - gslot x.1 ≤ 9
    · obtain ⟨n, hn, hlt⟩ : ∃ n : Nat, gslot x.1 % 10 = (n : Int) ∧ n < 10 :=
        ⟨(gslot x.1 % 10).toNat, by omega, by omega⟩
      simp only [hc, and_true, if_true, hn, Nat.cast_inj]
      interval_cases n <;> simp <;> omega
    · simp only [hc, and_false, if_false]
      omega

theorem recent_inc_le (T : timeval) (log : List (timeval × Nat × Nat)) :
    recent_inc T log ≤ recent_g (gslot T) log := by
  induction log with
  | nil => exact le_refl _
  | cons x log ih =>
    simp only [recent_inc, recent_g]
    have hg : gslot T = T.tv_sec * 10 + T.tv_usec / 100000 := rfl
    have hgx : gslot x.1 = x.1.tv_sec * 10 + x.1.tv_usec / 100000 := rfl
    have hm : micros T = T.tv_sec * 1000000 + T.tv_usec := rfl
    have hmx : micros x.1 = x.1.tv_sec * 1000000 + x.1.tv_usec := rfl
    split_ifs <;> omega

theorem list10 (l : List Nat) (h : l.length = 10) :
    ∃ a0 a1 a2 a3 a4 a5 a6 a7 a8 a9, l = [a0, a1, a2, a3, a4, a5, a6, a7, a8, a9] := by
  rcases l with _ | ⟨a0, _ | ⟨a1, _ | ⟨a2, _ | ⟨a3, _ | ⟨a4, _ | ⟨a5, _ | ⟨a6, _ | ⟨a7,
    _ | ⟨a8, _ | ⟨a9, _ | ⟨a10, l⟩⟩⟩⟩⟩⟩⟩⟩⟩⟩⟩ <;> simp at h
  exact ⟨a0, a1, a2, a3, a4, a5, a6, a7, a8, a9, rfl⟩

theorem recent_g_le_sum (g : Int) (log : List (timeval × Nat × Nat)) (slice : List Nat)
    (hl : slice.length = CM_TIME_SLOT)
    (h : ∀ j, j < CM_TIME_SLOT → ∃ v, slice[j]? = some v ∧ held g j log ≤ v) :
    recent_g g log ≤ slice.sum := by
  obtain ⟨a0, a1, a2, a3, a4, a5, a6, a7, a8, a9, rfl⟩ := list10 slice hl
  rw [← held_total g log]
  have h0 := h 0 (by decide)
  have h1 := h 1 (by decide)
  have h2 := h 2 (by decide)
  have h3 := h 3 (by decide)
  have h4 := h 4 (by decide)
  have h5 := h 5 (by decide)
  have h6 := h 6 (by decide)
  have h7 := h 7 (by decide)
  have h8 := h 8 (by decide)
  have h9 := h 9 (by decide)
  simp only [List.getElem?_cons_zero, List.getElem?_cons_succ, Option.some.injEq,
    exists_eq_left'] at h0 h1 h2 h3 h4 h5 h6 h7 h8 h9
  simp only [List.sum_cons, List.sum_nil]
  omega

theorem feed_log_append (fs : List (Nat × timeval)) (f : Nat × timeval) :
    ∀ (m : crossmeter_t) (r : Nat) (log : List (timeval × Nat × Nat)),
      feed_log m r log (fs ++ [f]) =
        match feed_log m r log fs with
        | none => none
        | some (m', r', log') => feed_log m' r' log' [f] := by
  induction fs with
  | nil => intro m r log; rfl
  | cons g fs ih =>
    intro m r log
    simp only [List.cons_append, feed_log]
    cases cm_speed_feed m g.1 g.2 with
    | none => rfl
    | some x => exact ih _ _ _

/-- The rate state after an accepted feed, in both branches of the expiry
test. -/
theorem feed_rate_fields (m m' : crossmeter_t) (inc_val r : Nat) (ts : timeval)
    (hw : well_formed m) (hl : usec_ok m.last_ts) (hu : usec_ok ts)
    (hs : stale m ts = false) (hi : inc_val < U32)
    (h : cm_speed_feed m inc_val ts = some (m', r)) :
    m'.last_ts = ts ∧ r = m'.real_speed ∧
    ((window_expired m ts = true ∧
        m'.speed_slice = (List.replicate CM_TIME_SLOT 0).set (slot_of ts) inc_val ∧
        m'.real_speed = inc_val) ∨
      (window_expired m ts = false ∧ ∃ (sl : List Nat) (s' v : Nat),
        sl.length = CM_TIME_SLOT ∧
        m.speed_slice.sum =
          sl.sum + cleared_sum m.speed_slice (slot_of m.last_ts) (slot_of ts) ∧
        s' = cleared_sum m.speed_slice (slot_of m.last_ts) (slot_of ts) % U32 ∧
        (∀ j, j < CM_TIME_SLOT →
          sl[j]? = if visited (slot_of m.last_ts) (slot_of ts) j then some 0
            else m.speed_slice[j]?) ∧
        sl[slot_of ts]? = some v ∧
        m'.speed_slice = sl.set (slot_of ts) ((v + inc_val) % U32) ∧
        m'.real_speed = ((m.real_speed + inc_val) % U32 + (U32 - s' % U32)) % U32)) := by
  have hcs10 := (slot_of_eq ts hu).2
  have hls10 := (slot_of_eq m.last_ts hl).2
  rw [cm_speed_feed_accept m inc_val ts hs] at h
  cases he : window_expired m ts with
  | true =>
    have e1 := feed_window_expired m inc_val ts he hu hi
    obtain ⟨m2, e2, _, _, hs2, hr2⟩ :=
      peak_update_total
        { m with
          speed_slice := (List.replicate CM_TIME_SLOT 0).set (slot_of ts) inc_val
          real_speed := inc_val } inc_val ts hw.2
    simp only [e1, e2, Option.some.injEq, Prod.mk.injEq] at h
    obtain ⟨h1, h2⟩ := h
    subst h1
    exact ⟨rfl, h2.symm, Or.inl ⟨rfl, hs2, hr2⟩⟩
  | false =>
    obtain ⟨sl, s', hrot, hlen, _, hsum, hs', hget⟩ :=
      rotate_spec m.speed_slice (slot_of m.last_ts) (slot_of ts) hw.1 hcs10 hls10
    have hlt : slot_of ts < sl.length := by rw [hlen]; exact hcs10
    obtain ⟨v, hv⟩ : ∃ v, sl[slot_of ts]? = some v :=
      ⟨sl[slot_of ts], List.getElem?_eq_getElem hlt⟩
    have hfw := feed_window_rotated m inc_val ts sl s' v he hrot hv
    obtain ⟨m2, e2, _, _, hs2, hr2⟩ :=
      peak_update_total
        { m with
          speed_slice := sl.set (slot_of ts) ((v + inc_val) % U32)
          real_speed := ((m.real_speed + inc_val) % U32 + (U32 - s' % U32)) % U32 }
        (((m.real_speed + inc_val) % U32 + (U32 - s' % U32)) % U32) ts hw.2
    simp only [hfw, e2, Option.some.injEq, Prod.mk.injEq] at h
    obtain ⟨h1, h2⟩ := h
    subst h1
    exact ⟨rfl, h2.symm, Or.inr ⟨rfl, sl, s', v, hlen, hsum, hs', hget, hv, hs2, hr2⟩⟩

theorem expired_gap (m : crossmeter_t) (ts : timeval) (hl : usec_ok m.last_ts)
    (hu : usec_ok ts) (hs : stale m ts = false) (he : window_expired m ts = true) :
    gslot m.last_ts + 10 ≤ gslot ts := by
  have hle := (stale_false_iff m ts).mp hs
  unfold ts_le at hle
  have hl' := hl
  have hu' := hu
  unfold usec_ok at hl' hu'
  unfold gslot
  by_cases hd : ts.tv_sec - m.last_ts.tv_sec < (U32 : Int)
  · have := (window_expired_iff m ts hl hu hs hd).mp he
    unfold micros at this
    omega
  · unfold U32 at hd
    push_cast at hd
    omega

theorem kept_step (m m' : crossmeter_t) (inc_val r : Nat) (ts : timeval)
    (log : List (timeval × Nat × Nat)) (hw : well_formed m) (hu : usec_ok ts)
    (hK : kept m log) (hs : stale m ts = false) (hb : m.speed_slice.sum + inc_val < U32)
    (h : cm_speed_feed m inc_val ts = some (m', r)) :
    kept m' ((ts, inc_val, r) :: log) ∧ m'.speed_slice.sum ≤ m.speed_slice.sum + inc_val ∧
      r = m'.speed_slice.sum := by
  obtain ⟨hlu, hlog, hreal, hbk, _⟩ := hK
  have hle := (stale_false_iff m ts).mp hs
  unfold ts_le at hle
  obtain ⟨hls, hls10⟩ := slot_of_eq m.last_ts hlu
  obtain ⟨hcs, hcs10⟩ := slot_of_eq ts hu
  have hlu' := hlu
  have hu' := hu
  unfold usec_ok at hlu' hu'
  have hg : gslot ts = ts.tv_sec * 10 + ts.tv_usec / 100000 := rfl
  have hgl : gslot m.last_ts = m.last_ts.tv_sec * 10 + m.last_ts.tv_usec / 100000 := rfl
  have hgle : gslot m.last_ts ≤ gslot ts := by omega
  have hcur : gslot ts % 10 = (slot_of ts : Int) := by omega
  obtain ⟨hl', hr', hcase⟩ :=
    feed_rate_fields m m' inc_val r ts hw hlu hu hs (by omega) h
  have hU : U32 = 4294967296 := rfl
  have hlog' : ∀ x ∈ (ts, inc_val, r) :: log, gslot x.1 ≤ gslot ts := by
    intro x hx
    rcases List.mem_cons.mp hx with rfl | hx
    · exact le_refl _
    · have := hlog x hx; omega
  have hhead : ∀ x, ((ts, inc_val, r) :: log).head? = some x → x.1 = ts := by
    intro x hx
    simp only [List.head?_cons, Option.some.injEq] at hx
    rw [← hx]
  rcases hcase with ⟨he, hsl, hrs⟩ | ⟨_, sl, s', v, hlen, hsum, hs', hget, hv, hsl, hrs⟩
  · have hgap := expired_gap m ts hlu hu hs he
    have hget0 : (List.replicate CM_TIME_SLOT 0)[slot_of ts]? = some 0 := by
      rw [List.getElem?_replicate]
      exact if_pos hcs10
    have hsumn := sum_set_add (List.replicate CM_TIME_SLOT 0) (slot_of ts) 0 inc_val hget0
    simp only [List.sum_replicate, smul_eq_mul, mul_zero, Nat.add_zero, Nat.zero_add] at hsumn
    refine ⟨⟨by rw [hl']; exact hu, by rw [hl']; exact hlog', by rw [hrs, hsl, hsumn],
      ?_, by rw [hl']; exact hhead⟩, by rw [hsl, hsumn]; omega, by rw [hr', hrs, hsl, hsumn]⟩
    intro j hj
    have hcs10' : slot_of ts < CM_TIME_SLOT := hcs10
    rw [hl', hsl, List.getElem?_set, List.getElem?_replicate]
    have hz : held (gslot ts) j log = 0 := by
      apply held_zero
      intro x hx
      have := hlog x hx
      omega
    simp only [List.length_replicate, if_pos hcs10', if_pos hj, held, hz, Nat.add_zero]
    by_cases e : slot_of ts = j
    · rw [if_pos e]
      refine ⟨inc_val, rfl, ?_⟩
      split_ifs <;> omega
    · rw [if_neg e]
      refine ⟨0, rfl, ?_⟩
      have hc0 : ¬ (gslot ts % 10 = (j : Int) ∧ gslot ts - gslot ts ≤ 9) := by omega
      rw [if_neg hc0]
  · have hlt : slot_of ts < sl.length := by rw [hlen]; exact hcs10
    have hvle := sum_set_add sl (slot_of ts) v 0 hv
    have hnew := sum_set_add sl (slot_of ts) v ((v + inc_val) % U32) hv
    have hmod : (v + inc_val) % U32 = v + inc_val := Nat.mod_eq_of_lt (by omega)
    rw [hmod] at hnew hsl
    have hsumn : m'.speed_slice.sum = sl.sum + inc_val := by rw [hsl]; omega
    have hrsn : m'.real_speed = sl.sum + inc_val := by
      rw [hrs, hreal, hs', hU]
      rw [hU] at hb
      omega
    refine ⟨⟨by rw [hl']; exact hu, by rw [hl']; exact hlog', by rw [hrsn, hsumn], ?_,
      by rw [hl']; exact hhead⟩, by omega, by rw [hr', hrsn, hsumn]⟩
    intro j hj
    obtain ⟨vj, hvj, hheld⟩ := hbk j hj
    have hmono := held_mono (gslot m.last_ts) (gslot ts) j log hgle
    have hslj := hget j hj
    rw [hl', hsl, List.getElem?_set]
    simp only [held]
    by_cases e : slot_of ts = j
    · subst e
      rw [hv] at hslj
      simp only [if_true, hlt]
      refine ⟨v + inc_val, rfl, ?_⟩
      have hc1 : gslot ts % 10 = ((slot_of ts : Nat) : Int) ∧ gslot ts - gslot ts ≤ 9 :=
        ⟨hcur, by omega⟩
      rw [if_pos hc1]
      by_cases hvis : visited (slot_of m.last_ts) (slot_of ts) (slot_of ts)
      · have hz : held (gslot ts) (slot_of ts) log = 0 := by
          apply held_zero
          intro x hx
          have := hlog x hx
          unfold visited at hvis
          omega
        omega
      · rw [if_neg hvis, hvj] at hslj
        simp only [Option.some.injEq] at hslj
        omega
    · have hc0 : ¬ (gslot ts % 10 = (j : Int) ∧ gslot ts - gslot ts ≤ 9) := by omega
      rw [if_neg e, if_neg hc0, Nat.zero_add]
      by_cases hvis : visited (slot_of m.last_ts) (slot_of ts) j
      · rw [if_pos hvis] at hslj
        have hz : held (gslot ts) j log = 0 := by
          apply held_zero
          intro x hx
          have := hlog x hx
          unfold visited at hvis
          omega
        exact ⟨0, hslj, by omega⟩
      · rw [if_neg hvis, hvj] at hslj
        exact ⟨vj, hslj, by omega⟩

theorem inc_sum_cons (f : Nat × timeval) (fs : List (Nat × timeval)) :
    inc_sum (f :: fs) = f.1 + inc_sum fs := by
  simp [inc_sum]

theorem inc_sum_append (fs : List (Nat × timeval)) (f : Nat × timeval) :
    inc_sum (fs ++ [f]) = inc_sum fs + f.1 := by
  simp [inc_sum]

theorem kept_run_rej (B : Nat) (T : timeval) (f : Nat × timeval) (fs : List (Nat × timeval))
    (m : crossmeter_t) (log : List (timeval × Nat × Nat))
    (hI : kept_run B T (f :: fs) m log) : kept_run B T fs m log := by
  obtain ⟨hK, hb, ho, hlater⟩ := hI
  rw [inc_sum_cons] at hb
  unfold nondecreasing at ho
  simp only [List.map_cons, List.cons_append, List.pairwise_cons] at ho
  refine ⟨hK, by omega, ho.2, ?_⟩
  intro hne t ht
  apply hlater hne t
  simp only [List.map_cons, List.cons_append]
  exact List.mem_cons_of_mem _ ht

theorem kept_run_acc (B : Nat) (T : timeval) (f : Nat × timeval) (fs : List (Nat × timeval))
    (m m' : crossmeter_t) (r : Nat) (log : List (timeval × Nat × Nat))
    (hw : well_formed m) (hu : usec_ok f.2) (hI : kept_run B T (f :: fs) m log)
    (hs : stale m f.2 = false) (h : cm_speed_feed m f.1 f.2 = some (m', r)) :
    kept_run B T fs m' ((f.2, f.1, r) :: log) := by
  obtain ⟨hK, hb, ho, _⟩ := hI
  rw [inc_sum_cons] at hb
  unfold nondecreasing at ho
  simp only [List.map_cons, List.cons_append, List.pairwise_cons] at ho
  obtain ⟨hK', hle, _⟩ := kept_step m m' f.1 r f.2 log hw hu hK hs (by omega) h
  have hlast : m'.last_ts = f.2 := by
    obtain ⟨_, _, _, _, hhead⟩ := hK'
    exact (hhead _ rfl).symm
  refine ⟨hK', by omega, ho.2, ?_⟩
  intro _ t ht
  rw [hlast]
  exact ho.1 t ht

theorem init_kept (p : Option (peak_arr Nat)) : kept (cm_speed_init p) [] := by
  have hsl : (cm_speed_init p).speed_slice = List.replicate CM_TIME_SLOT 0 := rfl
  have hlast : (cm_speed_init p).last_ts = ⟨0, 0⟩ := rfl
  have hreal : (cm_speed_init p).real_speed = 0 := rfl
  unfold kept
  rw [hsl, hlast, hreal]
  refine ⟨by decide, ?_, by simp, ?_, ?_⟩
  · intro x hx; simp at hx
  · intro j hj
    refine ⟨0, ?_, le_refl _⟩
    rw [List.getElem?_replicate]
    exact if_pos hj
  · intro x hx; simp at hx

/-- C19. No recent increment is dropped: on a meter initialised with positive
periods, for feeds with non-decreasing timestamps (`tv_usec` in range) whose
increments sum to less than 2^32, every call returns and the rate returned by
the last feed, at time `T`, is at least the sum of the increments of the
accepted feeds whose timestamps are at most 900,000 us before `T`. -/
theorem no_recent_dropped (p : Option (peak_arr Nat)) (fs : List (Nat × timeval))
    (inc_val : Nat) (T : timeval)
    (hp : periods_pos (cm_speed_init p).peak_period)
    (hu : ∀ f ∈ fs, usec_ok f.2) (huT : usec_ok T)
    (ho : nondecreasing ((fs ++ [(inc_val, T)]).map Prod.snd))
    (hsum : inc_sum (fs ++ [(inc_val, T)]) < U32) :
    ∃ m r log, feed_log (cm_speed_init p) 0 [] (fs ++ [(inc_val, T)]) = some (m, r, log) ∧
      recent_inc T log ≤ r := by
  have hw : well_formed (cm_speed_init p) :=
    ⟨by simp [cm_speed_init, cm_peakperiod_setall, zeroed], hp⟩
  rw [inc_sum_append] at hsum
  have hsl0 : (cm_speed_init p).speed_slice.sum = 0 := by
    simp [cm_speed_init, cm_peakperiod_setall, zeroed]
  have hinit : kept_run inc_val T fs (cm_speed_init p) [] := by
    refine ⟨init_kept p, by rw [hsl0]; simpa using hsum, ?_, ?_⟩
    · simpa using ho
    · intro hne; exact absurd rfl hne
  obtain ⟨m, r0, log, e, hI, hwm, _⟩ :=
    feed_log_induct (kept_run inc_val T)
      (fun f fs m log hI _ => kept_run_rej inc_val T f fs m log hI)
      (fun f fs m m' r log hw hu hI hs h => kept_run_acc inc_val T f fs m m' r log hw hu hI hs h)
      fs (cm_speed_init p) 0 [] hw hu hinit
  obtain ⟨hK, hb, _, hlater⟩ := hI
  obtain ⟨m', r, e', _, hwm', _, _⟩ := cm_speed_feed_total m inc_val T hwm huT
  rw [feed_log_append, e]
  cases hs : stale m T with
  | true =>
    have e1 := cm_speed_feed_stale m inc_val T hs
    refine ⟨m, m.real_speed, log, ?_, ?_⟩
    · simp only [feed_log, e1, hs, if_true]
    · cases log with
      | nil => exact Nat.zero_le _
      | cons x log =>
        have hle := hlater (List.cons_ne_nil _ _) T (by simp)
        have := (stale_false_iff m T).mpr hle
        rw [hs] at this
        exact Bool.noConfusion this
  | false =>
    refine ⟨m', r, (T, inc_val, r) :: log, ?_, ?_⟩
    · simp only [feed_log, e', hs, Bool.false_eq_true, if_false]
    · have hb' : m.speed_slice.sum + inc_val < U32 := by
        simp only [inc_sum, List.map_nil, List.sum_nil, Nat.add_zero] at hb
        exact hb
      obtain ⟨hK', _, hr⟩ := kept_step m m' inc_val r T log hwm huT hK hs hb' e'
      obtain ⟨_, _, _, hbk, hhead⟩ := hK'
      have hlast : m'.last_ts = T := (hhead _ rfl).symm
      rw [hlast] at hbk
      have h1 := recent_inc_le T ((T, inc_val, r) :: log)
      have h2 := recent_g_le_sum (gslot T) ((T, inc_val, r) :: log) m'.speed_slice hwm'.1 hbk
      omega

/-- Witness for C19: feeds of 5, 1, 1 at 0.05 s, 0.15 s and 1.04 s; the last
returns 2, the two increments fed in the last 900 ms, and the log holds the
three accepted feeds. -/
theorem no_recent_dropped_witness :
    (∃ m r log, feed_log (cm_speed_init none) 0 []
        ([(5, ⟨0, 50000⟩), (1, ⟨0, 150000⟩)] ++ [(1, ⟨1, 40000⟩)]) = some (m, r, log) ∧
      recent_inc ⟨1, 40000⟩ log ≤ r) ∧
    (feed_log (cm_speed_init none) 0 []
        ([(5, ⟨0, 50000⟩), (1, ⟨0, 150000⟩)] ++ [(1, ⟨1, 40000⟩)])).map
      (fun x => (x.2.1, recent_inc ⟨1, 40000⟩ x.2.2)) = some (2, 2) :=
  ⟨no_recent_dropped none [(5, ⟨0, 50000⟩), (1, ⟨0, 150000⟩)] 1 ⟨1, 40000⟩
    (by decide) (by decide) (by decide) (by decide) (by decide), by decide⟩

end CrossMeter
